import Mathlib

/-!
# Lifecycle controller of `apps/nsqd/main.go`

A shallow embedding of `program.Start`, `program.Stop`, `program.Context` and
`logFatal`.  The engine (`nsqd.New`, `LoadMetadata`, `PersistMetadata`, `Main`,
`Exit`, `Context`), the flag set, the TOML decoder and the logger are
collaborators of the controller; what they answer in one run is given by a
`World`, and every call the controller makes is recorded in a trace of
`Event`s.
-/

namespace Nsqd

/-- The engine options: option name and value, one entry per option
(`*nsqd.Options`). -/
abbrev Options := List (String × String)

/-- The decoded config file, `type config map[string]interface{}`; the zero
value (`var cfg config`) is the empty list. -/
abbrev Config := List (String × String)

/-- A constructed engine, `*nsqd.NSQD` (non-nil). -/
structure Engine where
  id : Nat
  deriving DecidableEq, Repr

/-- The calls `Start`, `Stop`, `Context` and the two goroutines make, in the
order they are made. -/
inductive Event where
  /-- `fmt.Println(version.String("nsqd"))` -/
  | println (text : String)
  /-- `toml.DecodeFile(configFile, &cfg)` -/
  | decodeFile (path : String)
  /-- the diagnostic written by `lg.LogFatal` -/
  | diagnostic (text : String)
  /-- `cfg.Validate()` -/
  | cfgValidate (cfg : Config)
  /-- `options.Resolve(opts, flagSet, cfg)` -/
  | optionsResolve (cfg : Config)
  /-- `nsqd.New(opts)` -/
  | nsqdNew (opts : Options)
  /-- `p.nsqd.LoadMetadata()` -/
  | loadMetadata (recv : Option Engine)
  /-- `p.nsqd.PersistMetadata()` -/
  | persistMetadata (recv : Option Engine)
  /-- `go func() { for range signalChan { ... } }()` -/
  | goSignalLoop
  /-- `signal.Notify(signalChan, syscall.SIGTERM)` -/
  | signalNotify
  /-- `go func() { err := p.nsqd.Main() ... }()` -/
  | goRunLoop (recv : Option Engine)
  /-- `p.nsqd.Exit()` is entered, on the receiver `p.nsqd` -/
  | exitCall (recv : Option Engine)
  /-- `p.nsqd.Exit()` has returned -/
  | exitReturn
  /-- `p.Stop()` has returned (its result is always nil) -/
  | stopReturn
  /-- `p.nsqd.Context()`, on the receiver `p.nsqd` -/
  | contextCall (recv : Option Engine)
  /-- `os.Exit(code)` -/
  | osExit (code : Nat)
  deriving DecidableEq, Repr

/-- Go's `type program struct { once sync.Once; nsqd *nsqd.NSQD }`.  `once` is
the done flag of the `sync.Once`; `nsqd = none` is the nil pointer. -/
structure program where
  once : Bool
  nsqd : Option Engine
  deriving DecidableEq, Repr

/-- The value `main` builds: `prg := &program{}`. -/
def program.zero : program := { once := false, nsqd := none }

/-- What the collaborators answer during one run of `Start`.  Each of them is
called at most once by `Start`, so one answer each describes a run. -/
structure World where
  /-- `nsqd.NewOptions()` -/
  defaults : Options
  /-- `flagSet.Lookup("version").Value.(flag.Getter).Get().(bool)` after
  `flagSet.Parse(os.Args[1:])` -/
  flagVersion : Bool
  /-- `flagSet.Lookup("config").Value.String()` -/
  flagConfig : String
  /-- the flags explicitly set on the command line, with their values -/
  flagsSet : List (String × String)
  /-- `version.String("nsqd")` -/
  versionText : String
  /-- `toml.DecodeFile(configFile, &cfg)`: the error text, or the decoded file -/
  decodeFile : Except String Config
  /-- the verdict of `cfg.Validate()` on a config: `none` when it is
  consistent, the reason when it is not -/
  validate : Config → Option String
  /-- the exit status `lg.LogFatal` terminates the process with -/
  fatalStatus : Nat
  /-- `nsqd.New(opts)` (package `nsqd`, not among the sources), with the result
  the spec gives it, `construct(config) -> Engine | error`: the error text, or
  the engine -/
  nsqdNew : Options → Except String Engine
  /-- `p.nsqd.LoadMetadata()`: nil or the error text -/
  loadMetadata : Option String
  /-- `p.nsqd.PersistMetadata()`: nil or the error text -/
  persistMetadata : Option String

/-- How a call of `Start` ends: it returns an `error` (`none` is nil), or the
process is terminated with an exit status before it returns. -/
inductive Outcome where
  | returned (err : Option String)
  | exited (code : Nat)
  deriving DecidableEq, Repr

/-- A finished call of `Start`: the program it leaves, the calls it made and
how it ended. -/
structure StartResult where
  prog : program
  trace : List Event
  outcome : Outcome
  deriving DecidableEq, Repr

/-- Modelled from the spec: `lg.LogFatal` (package `internal/lg`, not among the
sources).  "Every fatal path logs cause and context before exiting" and the
process "exits non-zero": the formatted message, behind the given prefix, is
written as a diagnostic and the process is terminated with the logger's exit
status (`World.fatalStatus`, non-zero by the spec). -/
def lgLogFatal (w : World) (p : program) (tr : List Event) (pfx msg : String) :
    StartResult :=
  { prog := p, trace := tr ++ [Event.diagnostic (pfx ++ msg)],
    outcome := Outcome.exited w.fatalStatus }

/-- The function `logFatal` of `main.go`:
`lg.LogFatal("[nsqd] ", f, args...)`; `msg` is `f` with `args` filled in. -/
def logFatal (w : World) (p : program) (tr : List Event) (msg : String) :
    StartResult :=
  lgLogFatal w p tr "[nsqd] " msg

/-- Modelled from the spec: one layer of the merge of `options.Resolve` (package
`go-options`, not among the sources): "overlay layer values for keys present"
in the layer; an option the layer does not name keeps its value. -/
def overlay (base : Options) (layer : List (String × String)) : Options :=
  base.map fun kv => (kv.1, (layer.lookup kv.1).getD kv.2)

/-- Modelled from the spec: `options.Resolve(opts, flagSet, cfg)` (package
`go-options`, not among the sources), by the merge rule of the spec: "start
from defaults; overlay file layer values for keys present in the file; overlay
flag layer values for keys explicitly set on the command line". -/
def optionsResolve (opts : Options) (flagsSet : List (String × String))
    (cfg : Config) : Options :=
  overlay (overlay opts cfg) flagsSet

/-- Modelled from the spec: `config.Validate` (declared beside `main.go`, not
among the sources).  "The file layer is validated for internal consistency
before merge; a validation failure aborts startup with a descriptive error and
non-zero exit": `none` when the config passes, the aborted run when it does
not. -/
def cfgValidate (w : World) (p : program) (tr : List Event) (cfg : Config) :
    Option StartResult :=
  match w.validate cfg with
  | some reason => some (lgLogFatal w p tr "" reason)
  | none => none

/-- `program.Start`, from the parsed flag set on.  The steps follow the source
line by line; a fatal step ends the run where the source calls `logFatal` or
`os.Exit`. -/
def Start (w : World) (p : program) : StartResult :=
  -- opts := nsqd.NewOptions()
  let opts := w.defaults
  -- if flagSet.Lookup("version")... { fmt.Println(version.String("nsqd")); os.Exit(0) }
  if w.flagVersion then
    { prog := p, trace := [Event.println w.versionText, Event.osExit 0],
      outcome := Outcome.exited 0 }
  else
    -- var cfg config; configFile := flagSet.Lookup("config").Value.String()
    let configFile := w.flagConfig
    -- if configFile != "" { _, err := toml.DecodeFile(configFile, &cfg) ... }
    let decoded : List Event × Except String Config :=
      if configFile ≠ "" then ([Event.decodeFile configFile], w.decodeFile)
      else ([], Except.ok [])
    match decoded with
    | (tr0, Except.error err) =>
      logFatal w p tr0 ("failed to load config file " ++ configFile ++ " - " ++ err)
    | (tr0, Except.ok cfg) =>
      -- cfg.Validate()
      let tr1 := tr0 ++ [Event.cfgValidate cfg]
      match cfgValidate w p tr1 cfg with
      | some aborted => aborted
      | none =>
        -- options.Resolve(opts, flagSet, cfg)
        let tr2 := tr1 ++ [Event.optionsResolve cfg]
        let opts := optionsResolve opts w.flagsSet cfg
        -- nsqd, err := nsqd.New(opts)
        let tr3 := tr2 ++ [Event.nsqdNew opts]
        match w.nsqdNew opts with
        | Except.error err => logFatal w p tr3 ("failed to instantiate nsqd - " ++ err)
        | Except.ok nsqd =>
          -- p.nsqd = nsqd
          let p := { p with nsqd := some nsqd }
          -- err = p.nsqd.LoadMetadata()
          let tr4 := tr3 ++ [Event.loadMetadata p.nsqd]
          match w.loadMetadata with
          | some err => logFatal w p tr4 ("failed to load metadata - " ++ err)
          | none =>
            -- err = p.nsqd.PersistMetadata()
            let tr5 := tr4 ++ [Event.persistMetadata p.nsqd]
            match w.persistMetadata with
            | some err => logFatal w p tr5 ("failed to persist metadata - " ++ err)
            | none =>
              -- go func() { for range signalChan {...} }(); signal.Notify(...)
              -- go func() { err := p.nsqd.Main() ... }(); return nil
              { prog := p,
                trace := tr5 ++ [Event.goSignalLoop, Event.signalNotify,
                                 Event.goRunLoop p.nsqd],
                outcome := Outcome.returned none }

/-! ## After `Start` has returned: the shutdown triggers, one after another -/

/-- The process once `Start` has returned: the program, the calls made so far
and, once the process has terminated, its exit status. -/
structure Sys where
  prog : program
  trace : List Event
  halted : Option Nat
  deriving DecidableEq, Repr

/-- The process right after a call of `Start` that returned. -/
def afterStart (r : StartResult) : Sys :=
  { prog := r.prog, trace := r.trace, halted := none }

/-- The guarded function literal of both `Do` calls, `func() { p.nsqd.Exit() }`:
`Exit` is called on the field `p.nsqd` and returns. -/
def exitAction (s : Sys) : Sys :=
  { s with trace := s.trace ++ [Event.exitCall s.prog.nsqd, Event.exitReturn] }

/-- `p.once.Do(f)` with no other goroutine inside `Do`: `f` runs if the guard
has not been used, and the guard is marked done when `f` has returned. -/
def onceDo (f : Sys → Sys) (s : Sys) : Sys :=
  if s.prog.once then s
  else
    let s1 := f s
    { s1 with prog := { s1.prog with once := true } }

/-- `program.Stop`: `p.once.Do(func() { p.nsqd.Exit() }); return nil`. -/
def Stop (s : Sys) : Sys :=
  let s1 := onceDo exitAction s
  { s1 with trace := s1.trace ++ [Event.stopReturn] }

/-- `program.Context`: `return p.nsqd.Context()`. -/
def Context (s : Sys) : Sys :=
  { s with trace := s.trace ++ [Event.contextCall s.prog.nsqd] }

/-- One turn of the signal loop, `for range signalChan { p.once.Do(...) }`, for
one SIGTERM taken from the channel. -/
def signalLoop (s : Sys) : Sys :=
  onceDo exitAction s

/-- The run-loop goroutine from the return of `Main` on:
`if err != nil { p.Stop(); os.Exit(1) }`. -/
def runLoop (err : Option String) (s : Sys) : Sys :=
  match err with
  | none => s
  | some _ =>
    let s1 := Stop s
    { s1 with trace := s1.trace ++ [Event.osExit 1], halted := some 1 }

/-- The three sources of a shutdown: a SIGTERM delivered to the signal loop, a
call of `Stop`, and `Main` returning a non-nil error in the run-loop goroutine. -/
inductive Trigger where
  | sigterm
  | stop
  | runFailure (err : String)
  deriving DecidableEq, Repr

/-- One trigger applied to the process; a terminated process runs nothing.  Of
the triggers only the failure of the run loop ends the process; the other end
of the process, the return of `main`, is not a trigger: it is `mainReturn`,
a move of `act`. -/
def fire (s : Sys) (t : Trigger) : Sys :=
  match s.halted with
  | some _ => s
  | none =>
    match t with
    | Trigger.sigterm => signalLoop s
    | Trigger.stop => Stop s
    | Trigger.runFailure err => runLoop (some err) s

/-- The triggers applied one after another. -/
def fireAll (s : Sys) (ts : List Trigger) : Sys :=
  ts.foldl fire s

/-- Modelled from the spec: the end of `main`, `svc.Run(prg, syscall.SIGINT)`
(package `go-svc`, not among the sources) returning.  "If the trigger was a
signal or explicit stop, the process exit code reflects normal termination",
"`0` for graceful shutdown": once a call of `Stop` made by `svc.Run` has
returned (its result is nil), `svc.Run` returns nil and `main` returns, which
ends the process with status 0.  In a running process a `Stop` that has
returned is one of `svc.Run`, the `Stop` of the run loop being followed by
`os.Exit(1)`. -/
def mainReturn (s : Sys) : Sys :=
  match s.halted with
  | some _ => s
  | none =>
    if Event.stopReturn ∈ s.trace then { s with halted := some 0 } else s

/-- What can happen to the process after `Start`: a shutdown trigger, or the
return of `main`. -/
inductive Move where
  | trigger (t : Trigger)
  | mainReturn
  deriving DecidableEq, Repr

/-- One move applied to the process. -/
def act (s : Sys) (m : Move) : Sys :=
  match m with
  | Move.trigger t => fire s t
  | Move.mainReturn => mainReturn s

/-- The moves applied one after another. -/
def actAll (s : Sys) (ms : List Move) : Sys :=
  ms.foldl act s

/-- Whether an event is a call of the engine's `Exit`. -/
def Event.isExitCall : Event → Bool
  | Event.exitCall _ => true
  | _ => false

/-- The number of calls of the engine's `Exit` in a trace. -/
def exitCalls (tr : List Event) : Nat :=
  tr.countP Event.isExitCall

/-- The startup steps of `Start`, in the order of the source. -/
inductive Step where
  | validate
  | resolve
  | construct
  | loadMetadata
  | persistMetadata
  | launchMain
  deriving DecidableEq, Repr

/-- The startup step an event is, if it is one. -/
def Event.step : Event → Option Step
  | Event.cfgValidate _ => some Step.validate
  | Event.optionsResolve _ => some Step.resolve
  | Event.nsqdNew _ => some Step.construct
  | Event.loadMetadata _ => some Step.loadMetadata
  | Event.persistMetadata _ => some Step.persistMetadata
  | Event.goRunLoop _ => some Step.launchMain
  | _ => none

/-- The startup steps invoked in a trace, in order. -/
def steps (tr : List Event) : List Step :=
  tr.filterMap Event.step

/-- The fixed order of the startup steps. -/
def startupOrder : List Step :=
  [Step.validate, Step.resolve, Step.construct, Step.loadMetadata,
   Step.persistMetadata, Step.launchMain]

/-- The file layer `Start` hands to `options.Resolve`: the decoded file when a
config path is given, the zero `config` otherwise. -/
def fileLayer (w : World) : Config :=
  if w.flagConfig ≠ "" then
    match w.decodeFile with
    | Except.ok cfg => cfg
    | Except.error _ => []
  else []

/-- The events of `Start` before `cfg.Validate()`: the decoding of the config
file when a path is given. -/
def decodeTrace (w : World) : List Event :=
  if w.flagConfig ≠ "" then [Event.decodeFile w.flagConfig] else []

/-- The error of the decoding step of `Start`, if it is run and fails. -/
def decodeError (w : World) : Option String :=
  if w.flagConfig ≠ "" then
    match w.decodeFile with
    | Except.ok _ => none
    | Except.error err => some err
  else none

/-- The options `Start` hands to `nsqd.New`: `opts` after
`options.Resolve(opts, flagSet, cfg)`. -/
def effective (w : World) : Options :=
  optionsResolve w.defaults w.flagsSet (fileLayer w)

/-- The events of `Start` from `cfg.Validate()` to `nsqd.New(opts)`. -/
def toNew (w : World) : List Event :=
  decodeTrace w ++ [Event.cfgValidate (fileLayer w), Event.optionsResolve (fileLayer w),
    Event.nsqdNew (effective w)]

/-- The value of an option under the three layers, by precedence: the flag if
it was explicitly set, else the file if it names the option, else the default. -/
def layered (flagsSet : List (String × String)) (file : Config) (name dflt : String) :
    String :=
  match flagsSet.lookup name with
  | some v => v
  | none =>
    match file.lookup name with
    | some v => v
    | none => dflt

/-! ## The three trigger sources as goroutines running concurrently -/

/-- The three goroutines that reach `p.once.Do(func() { p.nsqd.Exit() })`: the
signal loop, the run-loop goroutine and an external caller of `Stop`. -/
inductive Tid where
  | sig
  | run
  | ext
  deriving DecidableEq, Repr

/-- Where a goroutine stands in `p.once.Do(f)`.  `sync.Once` is the one of Go's
standard library, in the spec's words "a guarded action executed under mutual
exclusion with a completion flag checked first": the done flag is read, then
the mutex is taken, the flag is read again, `f` is called, the flag is stored
once `f` has returned, and the mutex is released. -/
inductive Pc where
  /-- outside `Do`, waiting for its next trigger -/
  | idle
  /-- `Do` entered, about to read the done flag -/
  | fast
  /-- the flag was clear, about to take the mutex -/
  | lock
  /-- holding the mutex, about to read the done flag again -/
  | check
  /-- `f` called: `p.nsqd.Exit()` is running -/
  | inExit
  /-- `p.nsqd.Exit()` has returned, about to store the done flag -/
  | store
  /-- about to release the mutex -/
  | unlock
  /-- `Do` has returned -/
  | after
  deriving DecidableEq, Repr

/-- One goroutine: its place in `Do` and the number of triggers it has still to
take (SIGTERMs to receive, calls of `Stop` to make, a failure of `Main`). -/
structure Goroutine where
  pc : Pc
  pending : Nat
  deriving DecidableEq, Repr

/-- The state shared by the goroutines: the `sync.Once` of the program (done
flag and mutex holder), the goroutines, the calls and returns of `Exit` and of
`Do` counted so far, and the exit status once the process has terminated. -/
structure Shared where
  done : Bool
  mu : Option Tid
  thr : Tid → Goroutine
  exitCalls : Nat
  exitReturns : Nat
  doReturns : Nat
  halted : Option Nat

/-- The state with goroutine `t` moved to `g`. -/
def Shared.move (s : Shared) (t : Tid) (g : Goroutine) : Shared :=
  { s with thr := fun u => if u = t then g else s.thr u }

/-- One atomic step of goroutine `t`.  A goroutine with nothing to do, or
waiting for the mutex, or in a terminated process, leaves the state as it is.
Of the goroutines only the run loop ends the process; the other end of the
process, the return of `main`, is the step `Sched.mainReturn` of `stepMain`. -/
def step (s : Shared) (t : Tid) : Shared :=
  match s.halted with
  | some _ => s
  | none =>
    let g := s.thr t
    match g.pc with
    | Pc.idle =>
      -- a SIGTERM is received / Stop is called / Main returns an error
      if g.pending = 0 then s
      else s.move t { pc := Pc.fast, pending := g.pending - 1 }
    | Pc.fast =>
      if s.done then { s.move t { g with pc := Pc.after } with doReturns := s.doReturns + 1 }
      else s.move t { g with pc := Pc.lock }
    | Pc.lock =>
      match s.mu with
      | some _ => s
      | none => { s.move t { g with pc := Pc.check } with mu := some t }
    | Pc.check =>
      if s.done then s.move t { g with pc := Pc.unlock }
      else { s.move t { g with pc := Pc.inExit } with exitCalls := s.exitCalls + 1 }
    | Pc.inExit =>
      { s.move t { g with pc := Pc.store } with exitReturns := s.exitReturns + 1 }
    | Pc.store =>
      { s.move t { g with pc := Pc.unlock } with done := true }
    | Pc.unlock =>
      { s.move t { g with pc := Pc.after } with mu := none, doReturns := s.doReturns + 1 }
    | Pc.after =>
      match t with
      -- p.Stop() has returned in the run-loop goroutine: os.Exit(1)
      | Tid.run => { s with halted := some 1 }
      -- back to `for range signalChan` / Stop returns nil to its caller
      | _ => s.move t { g with pc := Pc.idle }

/-- The goroutines run in the order a schedule names them. -/
def exec (s : Shared) (sched : List Tid) : Shared :=
  sched.foldl step s

/-- The state when `Start` returns: the guard unused, the signal loop with
`nSig` SIGTERMs to come, the external caller with `nStop` calls of `Stop` to
make, and `Main` still to return its error. -/
def Shared.init (nSig nStop : Nat) : Shared :=
  { done := false, mu := none,
    thr := fun t =>
      match t with
      | Tid.sig => { pc := Pc.idle, pending := nSig }
      | Tid.run => { pc := Pc.idle, pending := 1 }
      | Tid.ext => { pc := Pc.idle, pending := nStop },
    exitCalls := 0, exitReturns := 0, doReturns := 0, halted := none }

/-- The goroutines together with `main`: the shared state, and whether a call
of `Stop` made by `svc.Run` has returned. -/
structure Whole where
  shared : Shared
  stopReturned : Bool

/-- What a schedule can name: a step of a goroutine, or the return of `main`. -/
inductive Sched where
  | go (t : Tid)
  | mainReturn
  deriving DecidableEq, Repr

/-- One step of the goroutines together with `main`.  `Stop` has returned to
`svc.Run` when the external caller leaves `Do`.  Modelled from the spec: the
return of `main` after `svc.Run` (package `go-svc`, not among the sources), as
in `mainReturn`: once a `Stop` of `svc.Run` has returned, `main` can return,
which ends the process with status 0. -/
def stepMain (s : Whole) (x : Sched) : Whole :=
  match x with
  | Sched.go t =>
    { shared := step s.shared t,
      stopReturned :=
        if t = Tid.ext ∧ s.shared.halted = none ∧ (s.shared.thr t).pc = Pc.after then true
        else s.stopReturned }
  | Sched.mainReturn =>
    match s.shared.halted with
    | some _ => s
    | none =>
      if s.stopReturned then { s with shared := { s.shared with halted := some 0 } }
      else s

/-- The goroutines and `main` run in the order a schedule names them. -/
def execMain (s : Whole) (sched : List Sched) : Whole :=
  sched.foldl stepMain s

/-- The state when `Start` returns, with `main` waiting in `svc.Run`. -/
def Whole.init (nSig nStop : Nat) : Whole :=
  { shared := Shared.init nSig nStop, stopReturned := false }

/-! ## Concrete worlds and the paths of `Start` -/

/-- The world of a fatal load: the engine is built and `LoadMetadata` fails. -/
def wLoadFails : World :=
  { defaults := [("tcp-address", "0.0.0.0:4150"), ("mem-queue-size", "10000")],
    flagVersion := false, flagConfig := "", flagsSet := [],
    versionText := "nsqd v1.2.1", decodeFile := Except.ok [],
    validate := fun _ => none, fatalStatus := 1,
    nsqdNew := fun _ => Except.ok { id := 0 },
    loadMetadata := some "open nsqd.dat: permission denied", persistMetadata := none }

/-- The world of a startup in which every step succeeds. -/
def wOk : World :=
  { wLoadFails with loadMetadata := none }

/-- The world of a version query beside a config path that names no file. -/
def wVersion : World :=
  { wLoadFails with
    flagVersion := true
    flagConfig := "missing.cfg"
    decodeFile := Except.error "open missing.cfg: no such file or directory" }

/-- The world of a config file that does not decode. -/
def wBadConfig : World :=
  { wLoadFails with
    flagConfig := "nsqd.cfg"
    decodeFile := Except.error "toml: line 3: expected value" }

/-- The world of a merge: a flag and the config file both set `mem-queue-size`,
the file alone sets `tcp-address`, nothing sets `data-path`. -/
def wMerge : World :=
  { defaults := [("tcp-address", "0.0.0.0:4150"), ("mem-queue-size", "10000"),
      ("data-path", "")],
    flagVersion := false, flagConfig := "nsqd.cfg",
    flagsSet := [("config", "nsqd.cfg"), ("mem-queue-size", "5")],
    versionText := "nsqd v1.2.1",
    decodeFile := Except.ok [("mem-queue-size", "7"), ("tcp-address", "127.0.0.1:1")],
    validate := fun _ => none, fatalStatus := 1,
    nsqdNew := fun _ => Except.ok { id := 0 },
    loadMetadata := none, persistMetadata := none }

/-- The process of a program on which `Start` has not run: `prg := &program{}`. -/
def notStarted : Sys :=
  { prog := program.zero, trace := [], halted := none }

/-- The seven ways `Start` can go, by the first step that fails. -/
inductive StartPath (w : World) : Prop where
  | version (hv : w.flagVersion = true)
  | decodeError (err : String) (hv : w.flagVersion = false)
      (hd : decodeError w = some err)
  | validateFail (reason : String) (hv : w.flagVersion = false)
      (hd : Nsqd.decodeError w = none) (hval : w.validate (fileLayer w) = some reason)
  | newError (err : String) (hv : w.flagVersion = false)
      (hd : Nsqd.decodeError w = none) (hval : w.validate (fileLayer w) = none)
      (hnew : w.nsqdNew (effective w) = Except.error err)
  | loadError (e : Engine) (err : String) (hv : w.flagVersion = false)
      (hd : Nsqd.decodeError w = none) (hval : w.validate (fileLayer w) = none)
      (hnew : w.nsqdNew (effective w) = Except.ok e) (hload : w.loadMetadata = some err)
  | persistError (e : Engine) (err : String) (hv : w.flagVersion = false)
      (hd : Nsqd.decodeError w = none) (hval : w.validate (fileLayer w) = none)
      (hnew : w.nsqdNew (effective w) = Except.ok e) (hload : w.loadMetadata = none)
      (hpers : w.persistMetadata = some err)
  | ok (e : Engine) (hv : w.flagVersion = false)
      (hd : Nsqd.decodeError w = none) (hval : w.validate (fileLayer w) = none)
      (hnew : w.nsqdNew (effective w) = Except.ok e) (hload : w.loadMetadata = none)
      (hpers : w.persistMetadata = none)

/-- A running process on which only SIGTERMs and calls of `Stop` have followed
a `Start` that left the trace `tr0` and the engine field `n`: the guard is
unused and nothing was added, or the guard is used and `Exit` was called on
`n` and returned, followed by events that are neither a call of `Exit` nor an
`os.Exit`. -/
def Quiet (tr0 : List Event) (n : Option Engine) (s : Sys) : Prop :=
  s.halted = none ∧ s.prog.nsqd = n ∧
  ((s.prog.once = false ∧ s.trace = tr0) ∨
   (s.prog.once = true ∧
     ∃ b, s.trace = tr0 ++ [Event.exitCall n, Event.exitReturn] ++ b ∧
       exitCalls b = 0 ∧ ∀ c, Event.osExit c ∉ b))

/-- What holds of the process after a `Start` that returned and any moves: the
guard is used exactly when `Exit` has been called, and then it has been called
once; no `Stop` has returned and the process runs while the guard is unused;
the process ends with status 0 or 1 only. -/
def Settled (s : Sys) : Prop :=
  (s.prog.once = true → exitCalls s.trace = 1) ∧
  (s.prog.once = false →
    exitCalls s.trace = 0 ∧ Event.stopReturn ∉ s.trace ∧ s.halted = none) ∧
  (∀ c, s.halted = some c → c = 0 ∨ c = 1)

/-! ## The invariant of the interleavings -/

/-- Whether a goroutine at this place holds the mutex of the `sync.Once`. -/
def Pc.inCS : Pc → Bool
  | Pc.check => true
  | Pc.inExit => true
  | Pc.store => true
  | Pc.unlock => true
  | _ => false

/-- What holds in every state the goroutines can reach from `Shared.init`. -/
structure Inv (s : Shared) : Prop where
  /-- the mutex is held by the goroutine inside it, and by no other -/
  hold : ∀ t, (s.thr t).pc.inCS = true ↔ s.mu = some t
  /-- once the done flag is set, `Exit` has been called once and has returned -/
  done_once : s.done = true → s.exitCalls = 1 ∧ s.exitReturns = 1
  /-- while `Exit` runs, it has been called once and has not returned -/
  in_exit : ∀ t, (s.thr t).pc = Pc.inExit →
    s.done = false ∧ s.exitCalls = 1 ∧ s.exitReturns = 0
  /-- between the return of `Exit` and the store of the flag -/
  at_store : ∀ t, (s.thr t).pc = Pc.store →
    s.done = false ∧ s.exitCalls = 1 ∧ s.exitReturns = 1
  /-- before any goroutine has called `Exit` -/
  before : s.done = false →
    (∀ t, (s.thr t).pc ≠ Pc.inExit ∧ (s.thr t).pc ≠ Pc.store) →
    s.exitCalls = 0 ∧ s.exitReturns = 0
  /-- a goroutine leaves `Do` only with the done flag set -/
  past : ∀ t, (s.thr t).pc = Pc.unlock ∨ (s.thr t).pc = Pc.after → s.done = true
  /-- a `Do` has returned only with the done flag set -/
  returned : 0 < s.doReturns → s.done = true
  /-- the process terminates only with status 1, with the done flag set, from
  the run-loop goroutine after its `Do` has returned -/
  halt : ∀ c, s.halted = some c →
    c = 1 ∧ s.done = true ∧ (s.thr Tid.run).pc = Pc.after
  /-- the run-loop goroutine is outside `Do` only before `Main` has failed -/
  run_idle : (s.thr Tid.run).pc = Pc.idle → (s.thr Tid.run).pending = 1

/-- What holds in every state the goroutines and `main` can reach from
`Whole.init`: a `Stop` has returned to `svc.Run` only with the done flag set,
and either the invariant of the goroutines holds or `main` has returned, with
`Exit` called once and returned. -/
def InvMain (s : Whole) : Prop :=
  (s.stopReturned = true → s.shared.done = true) ∧
  (Inv s.shared ∨
    (s.shared.halted = some 0 ∧ s.stopReturned = true ∧
      s.shared.exitCalls = 1 ∧ s.shared.exitReturns = 1))

/-- The steps a goroutine at this place has still to make inside `Do`. -/
def Pc.rank : Pc → Nat
  | Pc.idle => 0
  | Pc.after => 1
  | Pc.unlock => 2
  | Pc.store => 3
  | Pc.inExit => 4
  | Pc.check => 5
  | Pc.lock => 6
  | Pc.fast => 7

/-- A bound on the steps one goroutine has still to make. -/
def Goroutine.left (g : Goroutine) : Nat :=
  8 * g.pending + g.pc.rank

/-- A bound on the steps the three goroutines have still to make. -/
def Shared.left (s : Shared) : Nat :=
  (s.thr Tid.sig).left + (s.thr Tid.run).left + (s.thr Tid.ext).left

end Nsqd

namespace Nsqd

/-! ## `Start`, case by case -/

theorem Start_version (w : World) (p : program) (hv : w.flagVersion = true) :
    Start w p =
      { prog := p, trace := [Event.println w.versionText, Event.osExit 0],
        outcome := Outcome.exited 0 } := by
  simp [Start, hv]

theorem Start_decodeError (w : World) (p : program) (err : String)
    (hv : w.flagVersion = false) (hd : decodeError w = some err) :
    Start w p =
      logFatal w p [Event.decodeFile w.flagConfig]
        ("failed to load config file " ++ w.flagConfig ++ " - " ++ err) := by
  unfold decodeError at hd
  by_cases hc : w.flagConfig = ""
  · simp [hc] at hd
  · cases hdf : w.decodeFile with
    | ok cfg => simp [hc, hdf] at hd
    | error e =>
      simp [hc, hdf] at hd
      subst hd
      simp [Start, hv, hc, hdf]

/-- Past the decoding step `Start` goes on with `cfg.Validate()` on the file
layer. -/
theorem Start_decoded (w : World) (p : program)
    (hv : w.flagVersion = false) (hd : decodeError w = none) :
    Start w p =
      match cfgValidate w p (decodeTrace w ++ [Event.cfgValidate (fileLayer w)])
          (fileLayer w) with
      | some aborted => aborted
      | none =>
        match w.nsqdNew (effective w) with
        | Except.error err => logFatal w p (toNew w) ("failed to instantiate nsqd - " ++ err)
        | Except.ok nsqd =>
          match w.loadMetadata with
          | some err =>
            logFatal w { p with nsqd := some nsqd }
              (toNew w ++ [Event.loadMetadata (some nsqd)])
              ("failed to load metadata - " ++ err)
          | none =>
            match w.persistMetadata with
            | some err =>
              logFatal w { p with nsqd := some nsqd }
                (toNew w ++ [Event.loadMetadata (some nsqd),
                  Event.persistMetadata (some nsqd)])
                ("failed to persist metadata - " ++ err)
            | none =>
              { prog := { p with nsqd := some nsqd },
                trace := toNew w ++ [Event.loadMetadata (some nsqd),
                  Event.persistMetadata (some nsqd), Event.goSignalLoop,
                  Event.signalNotify, Event.goRunLoop (some nsqd)],
                outcome := Outcome.returned none } := by
  unfold decodeError at hd
  by_cases hc : w.flagConfig = ""
  · simp [Start, hv, hc, fileLayer, decodeTrace, toNew, effective]
  · cases hdf : w.decodeFile with
    | error e => simp [hc, hdf] at hd
    | ok cfg =>
      simp [Start, hv, hc, hdf, fileLayer, decodeTrace, toNew, effective]

theorem Start_validateFail (w : World) (p : program) (reason : String)
    (hv : w.flagVersion = false) (hd : decodeError w = none)
    (hval : w.validate (fileLayer w) = some reason) :
    Start w p =
      { prog := p,
        trace := decodeTrace w ++ [Event.cfgValidate (fileLayer w),
          Event.diagnostic ("" ++ reason)],
        outcome := Outcome.exited w.fatalStatus } := by
  rw [Start_decoded w p hv hd]
  simp [cfgValidate, hval, lgLogFatal]

theorem Start_newError (w : World) (p : program) (err : String)
    (hv : w.flagVersion = false) (hd : decodeError w = none)
    (hval : w.validate (fileLayer w) = none)
    (hnew : w.nsqdNew (effective w) = Except.error err) :
    Start w p =
      { prog := p,
        trace := toNew w ++
          [Event.diagnostic ("[nsqd] " ++ ("failed to instantiate nsqd - " ++ err))],
        outcome := Outcome.exited w.fatalStatus } := by
  rw [Start_decoded w p hv hd]
  simp [cfgValidate, hval, hnew, logFatal, lgLogFatal]

theorem Start_loadError (w : World) (p : program) (e : Engine) (err : String)
    (hv : w.flagVersion = false) (hd : decodeError w = none)
    (hval : w.validate (fileLayer w) = none)
    (hnew : w.nsqdNew (effective w) = Except.ok e)
    (hload : w.loadMetadata = some err) :
    Start w p =
      { prog := { p with nsqd := some e },
        trace := toNew w ++ [Event.loadMetadata (some e),
          Event.diagnostic ("[nsqd] " ++ ("failed to load metadata - " ++ err))],
        outcome := Outcome.exited w.fatalStatus } := by
  rw [Start_decoded w p hv hd]
  simp [cfgValidate, hval, hnew, hload, logFatal, lgLogFatal]

theorem Start_persistError (w : World) (p : program) (e : Engine) (err : String)
    (hv : w.flagVersion = false) (hd : decodeError w = none)
    (hval : w.validate (fileLayer w) = none)
    (hnew : w.nsqdNew (effective w) = Except.ok e)
    (hload : w.loadMetadata = none) (hpers : w.persistMetadata = some err) :
    Start w p =
      { prog := { p with nsqd := some e },
        trace := toNew w ++ [Event.loadMetadata (some e),
          Event.persistMetadata (some e),
          Event.diagnostic ("[nsqd] " ++ ("failed to persist metadata - " ++ err))],
        outcome := Outcome.exited w.fatalStatus } := by
  rw [Start_decoded w p hv hd]
  simp [cfgValidate, hval, hnew, hload, hpers, logFatal, lgLogFatal]

theorem Start_ok (w : World) (p : program) (e : Engine)
    (hv : w.flagVersion = false) (hd : decodeError w = none)
    (hval : w.validate (fileLayer w) = none)
    (hnew : w.nsqdNew (effective w) = Except.ok e)
    (hload : w.loadMetadata = none) (hpers : w.persistMetadata = none) :
    Start w p =
      { prog := { p with nsqd := some e },
        trace := toNew w ++ [Event.loadMetadata (some e),
          Event.persistMetadata (some e), Event.goSignalLoop, Event.signalNotify,
          Event.goRunLoop (some e)],
        outcome := Outcome.returned none } := by
  rw [Start_decoded w p hv hd]
  simp [cfgValidate, hval, hnew, hload, hpers]

theorem steps_append (a b : List Event) : steps (a ++ b) = steps a ++ steps b := by
  simp [steps, List.filterMap_append]

theorem steps_decodeTrace (w : World) : steps (decodeTrace w) = [] := by
  unfold decodeTrace steps
  split <;> simp [Event.step]

theorem steps_toNew (w : World) :
    steps (toNew w) = [Step.validate, Step.resolve, Step.construct] := by
  unfold toNew
  rw [steps_append, steps_decodeTrace]
  simp [steps, Event.step]

theorem startPath (w : World) : StartPath w := by
  cases hv : w.flagVersion with
  | true => exact StartPath.version hv
  | false =>
    cases hd : decodeError w with
    | some err => exact StartPath.decodeError err hv hd
    | none =>
      cases hval : w.validate (fileLayer w) with
      | some reason => exact StartPath.validateFail reason hv hd hval
      | none =>
        cases hnew : w.nsqdNew (effective w) with
        | error err => exact StartPath.newError err hv hd hval hnew
        | ok e =>
          cases hload : w.loadMetadata with
          | some err => exact StartPath.loadError e err hv hd hval hnew hload
          | none =>
            cases hpers : w.persistMetadata with
            | some err => exact StartPath.persistError e err hv hd hval hnew hload hpers
            | none => exact StartPath.ok e hv hd hval hnew hload hpers

theorem mem_decodeTrace (w : World) (ev : Event) :
    ev ∈ decodeTrace w ↔ w.flagConfig ≠ "" ∧ ev = Event.decodeFile w.flagConfig := by
  unfold decodeTrace
  split <;> simp_all

theorem mem_toNew (w : World) (ev : Event) :
    ev ∈ toNew w ↔
      (w.flagConfig ≠ "" ∧ ev = Event.decodeFile w.flagConfig) ∨
      ev = Event.cfgValidate (fileLayer w) ∨ ev = Event.optionsResolve (fileLayer w) ∨
      ev = Event.nsqdNew (effective w) := by
  simp [toNew, mem_decodeTrace]

/-- C9: whenever the version flag is set, whatever the config flag and the config
file are, `Start` prints the version text and terminates the process with exit
status 0; it reads no config file and runs none of the startup steps (no
`nsqd.New`, `LoadMetadata`, `PersistMetadata`, launch of `Main`). -/
theorem version_flag_exits_zero (w : World) (p : program)
    (hv : w.flagVersion = true) :
    (Start w p).outcome = Outcome.exited 0 ∧
    (Start w p).trace = [Event.println w.versionText, Event.osExit 0] ∧
    (∀ path, Event.decodeFile path ∉ (Start w p).trace) ∧
    (∀ opts, Event.nsqdNew opts ∉ (Start w p).trace) ∧
    steps (Start w p).trace = [] ∧
    (Start w p).prog = p := by
  rw [Start_version w p hv]
  simp [steps, Event.step]

theorem version_flag_exits_zero_witness :
    wVersion.flagVersion = true ∧
    (Start wVersion program.zero).outcome = Outcome.exited 0 :=
  ⟨rfl, (version_flag_exits_zero wVersion program.zero rfl).1⟩

/-- C4: when `LoadMetadata` is invoked (the engine was constructed) and returns
an error, `Start` ends in the fatal logger: the process terminates with the
logger's non-zero status, `PersistMetadata` is not invoked, and neither the
signal loop nor the run-loop goroutine (the only caller of `Main`) is
started. -/
theorem load_failure_is_fatal (w : World) (p : program) (err : String)
    (hinv : Step.loadMetadata ∈ steps (Start w p).trace)
    (hload : w.loadMetadata = some err) (hf : w.fatalStatus ≠ 0) :
    (∃ code, (Start w p).outcome = Outcome.exited code ∧ code ≠ 0) ∧
    Event.diagnostic ("[nsqd] " ++ ("failed to load metadata - " ++ err))
      ∈ (Start w p).trace ∧
    Step.persistMetadata ∉ steps (Start w p).trace ∧
    Step.launchMain ∉ steps (Start w p).trace ∧
    Event.goSignalLoop ∉ (Start w p).trace ∧
    Event.signalNotify ∉ (Start w p).trace ∧
    (∀ recv, Event.goRunLoop recv ∉ (Start w p).trace) := by
  cases startPath w with
  | version hv => rw [Start_version w p hv] at hinv; simp [steps, Event.step] at hinv
  | decodeError e hv hd =>
    rw [Start_decodeError w p e hv hd] at hinv
    simp [steps, Event.step, logFatal, lgLogFatal] at hinv
  | validateFail r hv hd hval =>
    rw [Start_validateFail w p r hv hd hval] at hinv
    simp [steps_append, steps_decodeTrace] at hinv
    simp [steps, Event.step] at hinv
  | newError e hv hd hval hnew =>
    rw [Start_newError w p e hv hd hval hnew] at hinv
    simp [steps_append, steps_toNew] at hinv
    simp [steps, Event.step] at hinv
  | loadError e err1 hv hd hval hnew hload1 =>
    rw [hload] at hload1
    cases hload1
    rw [Start_loadError w p e err hv hd hval hnew hload]
    refine ⟨⟨w.fatalStatus, rfl, hf⟩, ?_, ?_, ?_, ?_, ?_, ?_⟩
    · simp
    · simp [steps_append, steps_toNew]; simp [steps, Event.step]
    · simp [steps_append, steps_toNew]; simp [steps, Event.step]
    · simp [mem_toNew]
    · simp [mem_toNew]
    · simp [mem_toNew]
  | persistError e err1 hv hd hval hnew hload1 hpers => rw [hload] at hload1; cases hload1
  | ok e hv hd hval hnew hload1 hpers => rw [hload] at hload1; cases hload1

theorem load_failure_is_fatal_witness :
    Step.loadMetadata ∈ steps (Start wLoadFails program.zero).trace ∧
    (∃ code, (Start wLoadFails program.zero).outcome = Outcome.exited code ∧ code ≠ 0) :=
  ⟨by decide,
   (load_failure_is_fatal wLoadFails program.zero "open nsqd.dat: permission denied"
      (by decide) rfl (by decide)).1⟩

/-- C8: when a non-empty config path is given and decoding the file fails,
`Start` ends in the fatal logger: the process terminates with the logger's
non-zero status, the diagnostic contains the config path and the decode error,
and nothing else has been called: no `cfg.Validate`, no `options.Resolve`, no
`nsqd.New`. -/
theorem decode_failure_is_fatal (w : World) (p : program) (err : String)
    (hv : w.flagVersion = false) (hc : w.flagConfig ≠ "")
    (hd : w.decodeFile = Except.error err) (hf : w.fatalStatus ≠ 0) :
    (∃ code, (Start w p).outcome = Outcome.exited code ∧ code ≠ 0) ∧
    (∃ text, (Start w p).trace = [Event.decodeFile w.flagConfig, Event.diagnostic text] ∧
      (∃ a b, text = a ++ w.flagConfig ++ b) ∧ (∃ a b, text = a ++ err ++ b)) ∧
    steps (Start w p).trace = [] ∧
    (∀ opts, Event.nsqdNew opts ∉ (Start w p).trace) ∧
    (Start w p).prog = p := by
  have hde : decodeError w = some err := by simp [decodeError, hc, hd]
  rw [Start_decodeError w p err hv hde]
  refine ⟨⟨w.fatalStatus, rfl, hf⟩, ⟨_, rfl, ?_, ?_⟩, ?_, ?_, rfl⟩
  · exact ⟨"[nsqd] " ++ "failed to load config file ", " - " ++ err, by
      simp only [String.append_assoc]⟩
  · exact ⟨"[nsqd] " ++ ("failed to load config file " ++ w.flagConfig ++ " - "), "", by
      simp only [String.append_assoc, String.append_empty]⟩
  · simp [logFatal, lgLogFatal, steps, Event.step]
  · simp [logFatal, lgLogFatal]

theorem decode_failure_is_fatal_witness :
    wBadConfig.flagConfig ≠ "" ∧
    (∃ code, (Start wBadConfig program.zero).outcome = Outcome.exited code ∧ code ≠ 0) :=
  ⟨by decide,
   (decode_failure_is_fatal wBadConfig program.zero "toml: line 3: expected value"
      rfl (by decide) rfl (by decide)).1⟩

/-- The startup steps `Start` invokes, by the way it goes. -/
theorem steps_Start (w : World) (p : program) :
    steps (Start w p).trace =
      if w.flagVersion = true ∨ decodeError w ≠ none then []
      else if w.validate (fileLayer w) ≠ none then [Step.validate]
      else
        match w.nsqdNew (effective w) with
        | Except.error _ => [Step.validate, Step.resolve, Step.construct]
        | Except.ok _ =>
          if w.loadMetadata ≠ none then
            [Step.validate, Step.resolve, Step.construct, Step.loadMetadata]
          else if w.persistMetadata ≠ none then
            [Step.validate, Step.resolve, Step.construct, Step.loadMetadata,
             Step.persistMetadata]
          else startupOrder := by
  cases startPath w with
  | version hv => rw [Start_version w p hv]; simp [hv, steps, Event.step]
  | decodeError e hv hd =>
    rw [Start_decodeError w p e hv hd]
    simp [hd, steps, Event.step, logFatal, lgLogFatal]
  | validateFail r hv hd hval =>
    rw [Start_validateFail w p r hv hd hval]
    simp [hv, hd, hval, steps_append, steps_decodeTrace]
    simp [steps, Event.step]
  | newError e hv hd hval hnew =>
    rw [Start_newError w p e hv hd hval hnew]
    simp [hv, hd, hval, hnew, steps_append, steps_toNew]
    simp [steps, Event.step]
  | loadError e err hv hd hval hnew hload =>
    rw [Start_loadError w p e err hv hd hval hnew hload]
    simp [hv, hd, hval, hnew, hload, steps_append, steps_toNew]
    simp [steps, Event.step]
  | persistError e err hv hd hval hnew hload hpers =>
    rw [Start_persistError w p e err hv hd hval hnew hload hpers]
    simp [hv, hd, hval, hnew, hload, hpers, steps_append, steps_toNew]
    simp [steps, Event.step]
  | ok e hv hd hval hnew hload hpers =>
    rw [Start_ok w p e hv hd hval hnew hload hpers]
    simp [hv, hd, hval, hnew, hload, hpers, steps_append, steps_toNew]
    simp [steps, Event.step, startupOrder]

/-- C7: the startup steps `Start` invokes are, in order, an initial part of
validate, resolve, construct, `LoadMetadata`, `PersistMetadata`, launch of
`Main`, each at most once; a step is invoked only when the steps before it went
through: the merge only after a config that passed validation, `LoadMetadata`
only on an engine `nsqd.New` returned, `PersistMetadata` only after
`LoadMetadata` returned nil, and `Main` is launched only after both returned
nil. -/
theorem startup_steps_in_order (w : World) (p : program) :
    steps (Start w p).trace <+: startupOrder ∧
    (steps (Start w p).trace).Nodup ∧
    (Step.validate ∈ steps (Start w p).trace →
      w.flagVersion = false ∧ decodeError w = none) ∧
    (Step.resolve ∈ steps (Start w p).trace → w.validate (fileLayer w) = none) ∧
    (Step.construct ∈ steps (Start w p).trace → w.validate (fileLayer w) = none) ∧
    (Step.loadMetadata ∈ steps (Start w p).trace →
      ∃ e, w.nsqdNew (effective w) = Except.ok e) ∧
    (Step.persistMetadata ∈ steps (Start w p).trace → w.loadMetadata = none) ∧
    (Step.launchMain ∈ steps (Start w p).trace →
      w.loadMetadata = none ∧ w.persistMetadata = none) := by
  rw [steps_Start]
  cases startPath w with
  | version hv => simp [hv]
  | decodeError e hv hd => simp [hv, hd]
  | validateFail r hv hd hval => simp [hv, hd, hval, startupOrder]
  | newError e hv hd hval hnew => simp [hv, hd, hval, hnew, startupOrder]
  | loadError e err hv hd hval hnew hload => simp [hv, hd, hval, hnew, hload, startupOrder]
  | persistError e err hv hd hval hnew hload hpers =>
    simp [hv, hd, hval, hnew, hload, hpers, startupOrder]
  | ok e hv hd hval hnew hload hpers =>
    simp [hv, hd, hval, hnew, hload, hpers, startupOrder]

theorem startup_steps_in_order_witness :
    steps (Start wLoadFails program.zero).trace <+: startupOrder :=
  (startup_steps_in_order wLoadFails program.zero).1

theorem exitCalls_append (a b : List Event) :
    exitCalls (a ++ b) = exitCalls a + exitCalls b := by
  simp [exitCalls, List.countP_append]

theorem exitCalls_toNew (w : World) : exitCalls (toNew w) = 0 := by
  unfold toNew decodeTrace
  split <;> simp [exitCalls, Event.isExitCall]

/-- No path of `Start` calls the engine's `Exit`. -/
theorem exitCalls_Start (w : World) (p : program) : exitCalls (Start w p).trace = 0 := by
  cases startPath w with
  | version hv => rw [Start_version w p hv]; simp [exitCalls, Event.isExitCall]
  | decodeError e hv hd =>
    rw [Start_decodeError w p e hv hd]
    simp [exitCalls, Event.isExitCall, logFatal, lgLogFatal]
  | validateFail r hv hd hval =>
    rw [Start_validateFail w p r hv hd hval]
    unfold decodeTrace
    split <;> simp [exitCalls, Event.isExitCall]
  | newError e hv hd hval hnew =>
    rw [Start_newError w p e hv hd hval hnew]
    simp [exitCalls_append, exitCalls_toNew]; simp [exitCalls, Event.isExitCall]
  | loadError e err hv hd hval hnew hload =>
    rw [Start_loadError w p e err hv hd hval hnew hload]
    simp [exitCalls_append, exitCalls_toNew]; simp [exitCalls, Event.isExitCall]
  | persistError e err hv hd hval hnew hload hpers =>
    rw [Start_persistError w p e err hv hd hval hnew hload hpers]
    simp [exitCalls_append, exitCalls_toNew]; simp [exitCalls, Event.isExitCall]
  | ok e hv hd hval hnew hload hpers =>
    rw [Start_ok w p e hv hd hval hnew hload hpers]
    simp [exitCalls_append, exitCalls_toNew]; simp [exitCalls, Event.isExitCall]

/-- C5, as the claim states it, fails: with the engine built and `LoadMetadata`
failing, the process is terminated and `Exit` has not been called once. -/
theorem abort_after_construct_skips_exit :
    (∃ e, wLoadFails.nsqdNew (effective wLoadFails) = Except.ok e) ∧
    wLoadFails.loadMetadata ≠ none ∧
    Step.loadMetadata ∈ steps (Start wLoadFails program.zero).trace ∧
    (Start wLoadFails program.zero).outcome = Outcome.exited 1 ∧
    exitCalls (Start wLoadFails program.zero).trace = 0 :=
  ⟨⟨{ id := 0 }, rfl⟩, by decide, by decide, by decide, by decide⟩

/-- C5, amended: when `nsqd.New` has succeeded (so `LoadMetadata` is invoked) and
`LoadMetadata` or `PersistMetadata` returns an error, `Start` ends in the fatal
logger: a diagnostic is written and the process terminates with the logger's
non-zero status; `Exit` is not called on that path, and neither the signal loop
nor the run-loop goroutine is started, so `Main` never runs. -/
theorem abort_after_construct (w : World) (p : program) (err : String)
    (hinv : Step.loadMetadata ∈ steps (Start w p).trace)
    (herr : w.loadMetadata = some err ∨
      (w.loadMetadata = none ∧ w.persistMetadata = some err))
    (hf : w.fatalStatus ≠ 0) :
    (∃ code, (Start w p).outcome = Outcome.exited code ∧ code ≠ 0) ∧
    (∃ text, Event.diagnostic text ∈ (Start w p).trace) ∧
    exitCalls (Start w p).trace = 0 ∧
    (∀ recv, Event.exitCall recv ∉ (Start w p).trace) ∧
    Event.goSignalLoop ∉ (Start w p).trace ∧
    (∀ recv, Event.goRunLoop recv ∉ (Start w p).trace) := by
  refine ⟨?_, ?_, exitCalls_Start w p, ?_, ?_, ?_⟩
  all_goals
    cases startPath w with
    | version hv => rw [Start_version w p hv] at hinv; simp [steps, Event.step] at hinv
    | decodeError e hv hd =>
      rw [Start_decodeError w p e hv hd] at hinv
      simp [steps, Event.step, logFatal, lgLogFatal] at hinv
    | validateFail r hv hd hval =>
      rw [Start_validateFail w p r hv hd hval] at hinv
      simp [steps_append, steps_decodeTrace] at hinv
      simp [steps, Event.step] at hinv
    | newError e hv hd hval hnew =>
      rw [Start_newError w p e hv hd hval hnew] at hinv
      simp [steps_append, steps_toNew] at hinv
      simp [steps, Event.step] at hinv
    | loadError e err1 hv hd hval hnew hload =>
      rw [Start_loadError w p e err1 hv hd hval hnew hload]
      first
        | exact ⟨w.fatalStatus, rfl, hf⟩
        | exact ⟨_, by simp⟩
        | simp [mem_toNew]
    | persistError e err1 hv hd hval hnew hload hpers =>
      rw [Start_persistError w p e err1 hv hd hval hnew hload hpers]
      first
        | exact ⟨w.fatalStatus, rfl, hf⟩
        | exact ⟨_, by simp⟩
        | simp [mem_toNew]
    | ok e hv hd hval hnew hload hpers =>
      rcases herr with h | ⟨_, h⟩
      · rw [hload] at h; cases h
      · rw [hpers] at h; cases h

theorem abort_after_construct_witness :
    Step.loadMetadata ∈ steps (Start wLoadFails program.zero).trace ∧
    exitCalls (Start wLoadFails program.zero).trace = 0 :=
  ⟨by decide,
   (abort_after_construct wLoadFails program.zero "open nsqd.dat: permission denied"
      (by decide) (Or.inl rfl) (by decide)).2.2.1⟩

/-! ## The merge of the three layers -/

theorem lookup_overlay (base : Options) (layer : List (String × String)) (name : String) :
    (overlay base layer).lookup name =
      (base.lookup name).map fun d => (layer.lookup name).getD d := by
  induction base with
  | nil => simp [overlay]
  | cons kv rest ih =>
    obtain ⟨k, v⟩ := kv
    unfold overlay at ih ⊢
    simp only [List.map_cons, List.lookup_cons]
    by_cases h : name = k
    · subst h; simp
    · have hb : (name == k) = false := by simpa using h
      simp only [hb]
      exact ih

theorem overlay_nil (base : Options) : overlay base [] = base := by
  simp [overlay]

theorem keys_overlay (base : Options) (layer : List (String × String)) :
    (overlay base layer).map Prod.fst = base.map Prod.fst := by
  simp [overlay, List.map_map, Function.comp_def]

/-- The options handed to `nsqd.New`, whenever it is called. -/
theorem nsqdNew_opts (w : World) (p : program) (opts : Options)
    (hnew : Event.nsqdNew opts ∈ (Start w p).trace) : opts = effective w := by
  cases startPath w with
  | version hv => rw [Start_version w p hv] at hnew; simp at hnew
  | decodeError e hv hd =>
    rw [Start_decodeError w p e hv hd] at hnew
    simp [logFatal, lgLogFatal] at hnew
  | validateFail r hv hd hval =>
    rw [Start_validateFail w p r hv hd hval] at hnew
    simp [mem_decodeTrace] at hnew
  | newError e hv hd hval hnew1 =>
    rw [Start_newError w p e hv hd hval hnew1] at hnew
    simpa [mem_toNew] using hnew
  | loadError e err hv hd hval hnew1 hload =>
    rw [Start_loadError w p e err hv hd hval hnew1 hload] at hnew
    simpa [mem_toNew] using hnew
  | persistError e err hv hd hval hnew1 hload hpers =>
    rw [Start_persistError w p e err hv hd hval hnew1 hload hpers] at hnew
    simpa [mem_toNew] using hnew
  | ok e hv hd hval hnew1 hload hpers =>
    rw [Start_ok w p e hv hd hval hnew1 hload hpers] at hnew
    simpa [mem_toNew] using hnew

/-- C6: the options `Start` hands to `nsqd.New` are the merge of the three
layers: they name the options of `nsqd.NewOptions()`, and each option has the
value of its flag if the flag was explicitly set, else the value the config
file gives it if a config file was given and names it, else its default.  So a
flag that is set wins over the file, the file wins over the default, and with
no config file and no flag set the options are the defaults. -/
theorem effective_options_layered (w : World) (p : program) (opts : Options)
    (hnew : Event.nsqdNew opts ∈ (Start w p).trace) :
    opts.map Prod.fst = w.defaults.map Prod.fst ∧
    (∀ name dflt, w.defaults.lookup name = some dflt →
      opts.lookup name = some (layered w.flagsSet (fileLayer w) name dflt)) ∧
    (∀ name dflt v, w.defaults.lookup name = some dflt →
      w.flagsSet.lookup name = some v → opts.lookup name = some v) ∧
    (∀ name dflt v, w.defaults.lookup name = some dflt →
      w.flagsSet.lookup name = none → (fileLayer w).lookup name = some v →
      opts.lookup name = some v) ∧
    (∀ name dflt, w.defaults.lookup name = some dflt →
      w.flagsSet.lookup name = none → (fileLayer w).lookup name = none →
      opts.lookup name = some dflt) ∧
    (w.flagConfig = "" → fileLayer w = []) ∧
    (w.flagConfig = "" → w.flagsSet = [] → opts = w.defaults) := by
  have hopts := nsqdNew_opts w p opts hnew
  subst hopts
  have key : ∀ name dflt, w.defaults.lookup name = some dflt →
      (effective w).lookup name = some (layered w.flagsSet (fileLayer w) name dflt) := by
    intro name dflt hd
    unfold effective optionsResolve
    rw [lookup_overlay, lookup_overlay, hd]
    unfold layered
    cases w.flagsSet.lookup name <;> cases (fileLayer w).lookup name <;> simp
  refine ⟨?_, key, ?_, ?_, ?_, ?_, ?_⟩
  · simp [effective, optionsResolve, keys_overlay]
  · intro name dflt v hd hfl
    rw [key name dflt hd]; simp [layered, hfl]
  · intro name dflt v hd hfl hfile
    rw [key name dflt hd]; simp [layered, hfl, hfile]
  · intro name dflt hd hfl hfile
    rw [key name dflt hd]; simp [layered, hfl, hfile]
  · intro hc; simp [fileLayer, hc]
  · intro hc hfl
    simp [effective, optionsResolve, fileLayer, hc, hfl, overlay_nil]

theorem effective_options_layered_witness :
    Event.nsqdNew [("tcp-address", "127.0.0.1:1"), ("mem-queue-size", "5"),
        ("data-path", "")] ∈ (Start wMerge program.zero).trace ∧
    List.map Prod.fst [("tcp-address", "127.0.0.1:1"), ("mem-queue-size", "5"),
        ("data-path", "")] = wMerge.defaults.map Prod.fst :=
  have h : Event.nsqdNew [("tcp-address", "127.0.0.1:1"), ("mem-queue-size", "5"),
      ("data-path", "")] ∈ (Start wMerge program.zero).trace := by
    simp [Start, wMerge, cfgValidate, optionsResolve, overlay, List.lookup]
  ⟨h, (effective_options_layered wMerge program.zero _ h).1⟩

/-! ## Triggers applied one after another -/

theorem fireAll_cons (s : Sys) (t : Trigger) (ts : List Trigger) :
    fireAll s (t :: ts) = fireAll (fire s t) ts := rfl

/-- What one trigger does to a running process, by the state of the guard. -/
theorem fire_running (s : Sys) (t : Trigger) (hh : s.halted = none) :
    fire s t =
      match t with
      | Trigger.sigterm =>
        if s.prog.once then s
        else { s with prog := { s.prog with once := true },
                      trace := s.trace ++ [Event.exitCall s.prog.nsqd, Event.exitReturn] }
      | Trigger.stop =>
        if s.prog.once then { s with trace := s.trace ++ [Event.stopReturn] }
        else { s with prog := { s.prog with once := true },
                      trace := s.trace ++ [Event.exitCall s.prog.nsqd, Event.exitReturn,
                        Event.stopReturn] }
      | Trigger.runFailure _ =>
        if s.prog.once then
          { s with trace := s.trace ++ [Event.stopReturn, Event.osExit 1], halted := some 1 }
        else { prog := { s.prog with once := true },
               trace := s.trace ++ [Event.exitCall s.prog.nsqd, Event.exitReturn,
                 Event.stopReturn, Event.osExit 1],
               halted := some 1 } := by
  cases t <;> by_cases ho : s.prog.once = true <;>
    simp [fire, hh, signalLoop, Stop, runLoop, onceDo, exitAction, ho]

theorem fire_halted (s : Sys) (t : Trigger) (c : Nat) (hh : s.halted = some c) :
    fire s t = s := by
  simp [fire, hh]

/-- No trigger changes the engine field of the program. -/
theorem fire_nsqd (s : Sys) (t : Trigger) : (fire s t).prog.nsqd = s.prog.nsqd := by
  cases hh : s.halted with
  | some c => rw [fire_halted s t c hh]
  | none =>
    rw [fire_running s t hh]
    cases t <;> by_cases ho : s.prog.once = true <;> simp [ho]

theorem fireAll_nsqd (s : Sys) (ts : List Trigger) :
    (fireAll s ts).prog.nsqd = s.prog.nsqd := by
  induction ts generalizing s with
  | nil => rfl
  | cons t ts ih => rw [fireAll_cons, ih, fire_nsqd]

/-- The guard, once used, stays used, and the calls of `Exit` stay as they are. -/
theorem fire_used (s : Sys) (t : Trigger) (ho : s.prog.once = true) :
    (fire s t).prog.once = true ∧ exitCalls (fire s t).trace = exitCalls s.trace := by
  cases hh : s.halted with
  | some c => rw [fire_halted s t c hh]; exact ⟨ho, rfl⟩
  | none =>
    rw [fire_running s t hh]
    cases t <;> simp [ho, exitCalls_append] <;> simp [exitCalls, Event.isExitCall]

theorem fireAll_used (s : Sys) (ts : List Trigger) (ho : s.prog.once = true) :
    (fireAll s ts).prog.once = true ∧
      exitCalls (fireAll s ts).trace = exitCalls s.trace := by
  induction ts generalizing s with
  | nil => exact ⟨ho, rfl⟩
  | cons t ts ih =>
    rw [fireAll_cons]
    obtain ⟨h1, h2⟩ := fire_used s t ho
    obtain ⟨h3, h4⟩ := ih (fire s t) h1
    exact ⟨h3, by rw [h4, h2]⟩

/-- The first trigger on a running process with an unused guard calls `Exit`
once, on the engine field, and uses the guard. -/
theorem fire_first (s : Sys) (t : Trigger) (hh : s.halted = none)
    (ho : s.prog.once = false) :
    (fire s t).prog.once = true ∧ exitCalls (fire s t).trace = exitCalls s.trace + 1 := by
  rw [fire_running s t hh]
  cases t <;> simp [ho, exitCalls_append] <;> simp [exitCalls, Event.isExitCall]

/-- A call of `Exit` in the trace after a trigger was there before, or is made
on the engine field. -/
theorem fire_exitCall (s : Sys) (t : Trigger) (recv : Option Engine)
    (h : Event.exitCall recv ∈ (fire s t).trace) :
    Event.exitCall recv ∈ s.trace ∨ recv = s.prog.nsqd := by
  cases hh : s.halted with
  | some c => rw [fire_halted s t c hh] at h; exact Or.inl h
  | none =>
    rw [fire_running s t hh] at h
    cases t <;> by_cases ho : s.prog.once = true <;> simp [ho] at h <;> tauto

theorem fireAll_exitCall (s : Sys) (ts : List Trigger) (recv : Option Engine)
    (h : Event.exitCall recv ∈ (fireAll s ts).trace) :
    Event.exitCall recv ∈ s.trace ∨ recv = s.prog.nsqd := by
  induction ts generalizing s with
  | nil => exact Or.inl h
  | cons t ts ih =>
    rw [fireAll_cons] at h
    rcases ih (fire s t) h with h1 | h1
    · exact fire_exitCall s t recv h1
    · right; rw [h1, fire_nsqd]

/-- A trace without calls of `Exit` holds no `exitCall` event. -/
theorem not_mem_of_exitCalls_zero (tr : List Event) (h : exitCalls tr = 0)
    (recv : Option Engine) : Event.exitCall recv ∉ tr := by
  intro hm
  have : 0 < exitCalls tr := by
    unfold exitCalls
    exact List.countP_pos_iff.mpr ⟨_, hm, rfl⟩
  omega

/-- When `Start` returns, the engine field holds the engine `nsqd.New`
returned, and the guard is as it was. -/
theorem Start_returned (w : World) (p : program) (r : Option String)
    (hret : (Start w p).outcome = Outcome.returned r) :
    r = none ∧ (Start w p).prog.once = p.once ∧
    ∃ e, w.nsqdNew (effective w) = Except.ok e ∧ (Start w p).prog.nsqd = some e ∧
      Event.nsqdNew (effective w) ∈ (Start w p).trace := by
  cases startPath w with
  | version hv => rw [Start_version w p hv] at hret; simp at hret
  | decodeError e hv hd =>
    rw [Start_decodeError w p e hv hd] at hret; simp [logFatal, lgLogFatal] at hret
  | validateFail r hv hd hval =>
    rw [Start_validateFail w p r hv hd hval] at hret; simp at hret
  | newError e hv hd hval hnew =>
    rw [Start_newError w p e hv hd hval hnew] at hret; simp at hret
  | loadError e err hv hd hval hnew hload =>
    rw [Start_loadError w p e err hv hd hval hnew hload] at hret; simp at hret
  | persistError e err hv hd hval hnew hload hpers =>
    rw [Start_persistError w p e err hv hd hval hnew hload hpers] at hret; simp at hret
  | ok e hv hd hval hnew hload hpers =>
    rw [Start_ok w p e hv hd hval hnew hload hpers] at hret ⊢
    simp at hret
    exact ⟨hret.symm, rfl, e, hnew, rfl, by simp [mem_toNew]⟩

/-- C1: after a `Start` that returned, on a program whose guard is unused, no
call of `Exit` has been made; the first shutdown trigger (SIGTERM, `Stop`, or
a failure of the run loop) calls `Exit`, and after any non-empty sequence of
triggers `Exit` has been called exactly once, on the engine of the program: a
later trigger leaves the number of calls as it is.  Two SIGTERMs in a row, and
two calls of `Stop` in a row, call `Exit` once. -/
theorem exit_once_after_triggers (w : World) (p : program)
    (hret : (Start w p).outcome = Outcome.returned none) (hp : p.once = false) :
    exitCalls (afterStart (Start w p)).trace = 0 ∧
    (∀ t, exitCalls (fire (afterStart (Start w p)) t).trace = 1) ∧
    (∀ t ts, exitCalls (fireAll (afterStart (Start w p)) (t :: ts)).trace = 1) ∧
    (∀ t ts u, exitCalls (fireAll (afterStart (Start w p)) (t :: ts ++ [u])).trace =
      exitCalls (fireAll (afterStart (Start w p)) (t :: ts)).trace) ∧
    (∀ t ts recv, Event.exitCall recv ∈ (fireAll (afterStart (Start w p)) (t :: ts)).trace →
      recv = (Start w p).prog.nsqd) ∧
    exitCalls (fireAll (afterStart (Start w p))
      [Trigger.sigterm, Trigger.sigterm]).trace = 1 ∧
    exitCalls (fireAll (afterStart (Start w p)) [Trigger.stop, Trigger.stop]).trace = 1 := by
  obtain ⟨-, honce, -⟩ := Start_returned w p none hret
  have h0 : exitCalls (afterStart (Start w p)).trace = 0 := exitCalls_Start w p
  have hh : (afterStart (Start w p)).halted = none := rfl
  have ho : (afterStart (Start w p)).prog.once = false := by
    simp [afterStart, honce, hp]
  have hall : ∀ t ts, exitCalls (fireAll (afterStart (Start w p)) (t :: ts)).trace = 1 := by
    intro t ts
    obtain ⟨h1, h2⟩ := fire_first (afterStart (Start w p)) t hh ho
    rw [fireAll_cons, (fireAll_used _ ts h1).2, h2, h0]
  refine ⟨h0, fun t => hall t [], hall, ?_, ?_, hall _ _, hall _ _⟩
  · intro t ts u
    rw [List.cons_append, hall t (ts ++ [u]), hall t ts]
  · intro t ts recv hm
    rcases fireAll_exitCall _ _ recv hm with h | h
    · exact absurd h (not_mem_of_exitCalls_zero _ h0 recv)
    · exact h

theorem exit_once_after_triggers_witness :
    (Start wOk program.zero).outcome = Outcome.returned none ∧
    exitCalls (fireAll (afterStart (Start wOk program.zero))
      [Trigger.sigterm, Trigger.sigterm]).trace = 1 :=
  ⟨by decide, (exit_once_after_triggers wOk program.zero (by decide) rfl).2.2.2.2.2.1⟩

/-- C10: `Start` never returns a non-nil error: it either terminates the
process or returns nil, and it returns only when every startup step went
through; then the engine field holds the engine `nsqd.New` returned.  After
that, whatever triggers have fired, `Stop` and `Context` act on that engine and
every call of `Exit` is made on it.  On a program on which `Start` has not run
the field is nil: the first `Stop` calls `Exit` on nil, a second `Stop` calls
nothing, and `Context` is called on nil. -/
theorem start_returns_nil_with_engine (w : World) (p : program) :
    (∀ err, (Start w p).outcome ≠ Outcome.returned (some err)) ∧
    ((∃ code, (Start w p).outcome = Outcome.exited code) ∨
      (Start w p).outcome = Outcome.returned none) ∧
    ((Start w p).outcome = Outcome.returned none →
      w.flagVersion = false ∧ decodeError w = none ∧ w.validate (fileLayer w) = none ∧
      w.loadMetadata = none ∧ w.persistMetadata = none) ∧
    ((Start w p).outcome = Outcome.returned none →
      ∃ e, w.nsqdNew (effective w) = Except.ok e ∧ (Start w p).prog.nsqd = some e ∧
        ∀ ts,
          (fireAll (afterStart (Start w p)) ts).prog.nsqd = some e ∧
          (∀ recv, Event.exitCall recv ∈ (fireAll (afterStart (Start w p)) ts).trace →
            recv = some e) ∧
          (∀ recv, Event.exitCall recv ∈ (Stop (fireAll (afterStart (Start w p)) ts)).trace →
            recv = some e) ∧
          (Context (fireAll (afterStart (Start w p)) ts)).trace =
            (fireAll (afterStart (Start w p)) ts).trace ++ [Event.contextCall (some e)]) ∧
    (Stop notStarted).trace = [Event.exitCall none, Event.exitReturn, Event.stopReturn] ∧
    (Stop (Stop notStarted)).trace =
      [Event.exitCall none, Event.exitReturn, Event.stopReturn, Event.stopReturn] ∧
    (Context notStarted).trace = [Event.contextCall none] := by
  refine ⟨?_, ?_, ?_, ?_, by decide, by decide, by decide⟩
  · intro err h
    have := (Start_returned w p (some err) h).1
    cases this
  · cases startPath w with
    | version hv => rw [Start_version w p hv]; simp
    | decodeError e hv hd =>
      rw [Start_decodeError w p e hv hd]; simp [logFatal, lgLogFatal]
    | validateFail r hv hd hval => rw [Start_validateFail w p r hv hd hval]; simp
    | newError e hv hd hval hnew => rw [Start_newError w p e hv hd hval hnew]; simp
    | loadError e err hv hd hval hnew hload =>
      rw [Start_loadError w p e err hv hd hval hnew hload]; simp
    | persistError e err hv hd hval hnew hload hpers =>
      rw [Start_persistError w p e err hv hd hval hnew hload hpers]; simp
    | ok e hv hd hval hnew hload hpers =>
      rw [Start_ok w p e hv hd hval hnew hload hpers]; simp
  · intro hret
    cases startPath w with
    | version hv => rw [Start_version w p hv] at hret; simp at hret
    | decodeError e hv hd =>
      rw [Start_decodeError w p e hv hd] at hret; simp [logFatal, lgLogFatal] at hret
    | validateFail r hv hd hval =>
      rw [Start_validateFail w p r hv hd hval] at hret; simp at hret
    | newError e hv hd hval hnew =>
      rw [Start_newError w p e hv hd hval hnew] at hret; simp at hret
    | loadError e err hv hd hval hnew hload =>
      rw [Start_loadError w p e err hv hd hval hnew hload] at hret; simp at hret
    | persistError e err hv hd hval hnew hload hpers =>
      rw [Start_persistError w p e err hv hd hval hnew hload hpers] at hret; simp at hret
    | ok e hv hd hval hnew hload hpers => exact ⟨hv, hd, hval, hload, hpers⟩
  · intro hret
    obtain ⟨-, -, e, hnew, hn, -⟩ := Start_returned w p none hret
    refine ⟨e, hnew, hn, fun ts => ?_⟩
    have hfield : (fireAll (afterStart (Start w p)) ts).prog.nsqd = some e := by
      rw [fireAll_nsqd]; exact hn
    have hcalls : ∀ recv, Event.exitCall recv ∈ (fireAll (afterStart (Start w p)) ts).trace →
        recv = some e := by
      intro recv hm
      rcases fireAll_exitCall _ _ recv hm with h | h
      · exact absurd h (not_mem_of_exitCalls_zero _ (exitCalls_Start w p) recv)
      · rw [h]; exact hn
    refine ⟨hfield, hcalls, ?_, ?_⟩
    · intro recv hm
      by_cases ho : (fireAll (afterStart (Start w p)) ts).prog.once = true
      · simp [Stop, onceDo, ho] at hm
        exact hcalls recv hm
      · simp [Stop, onceDo, exitAction, ho] at hm
        rcases hm with hm | hm
        · exact hcalls recv hm
        · rw [hm]; exact hfield
    · simp [Context, hfield]

theorem start_returns_nil_with_engine_witness :
    (Start wOk program.zero).outcome = Outcome.returned none ∧
    (Stop notStarted).trace = [Event.exitCall none, Event.exitReturn, Event.stopReturn] :=
  ⟨by decide, (start_returns_nil_with_engine wOk program.zero).2.2.2.2.1⟩

/-! ## The goroutines running concurrently -/

theorem init_pc (nSig nStop : Nat) (t : Tid) :
    ((Shared.init nSig nStop).thr t).pc = Pc.idle := by
  cases t <;> rfl

theorem inv_init (nSig nStop : Nat) : Inv (Shared.init nSig nStop) := by
  have hpc := init_pc nSig nStop
  constructor
  · intro t; simp [hpc, Pc.inCS]; simp [Shared.init]
  · simp [Shared.init]
  · intro t; simp [hpc]
  · intro t; simp [hpc]
  · intros; simp [Shared.init]
  · intro t; simp [hpc]
  · simp [Shared.init]
  · simp [Shared.init]
  · intro _; rfl

@[simp] theorem thr_move_self (s : Shared) (t : Tid) (g : Goroutine) :
    (s.move t g).thr t = g := by
  simp [Shared.move]

theorem thr_move_other (s : Shared) (t u : Tid) (g : Goroutine) (hu : u ≠ t) :
    (s.move t g).thr u = s.thr u := by
  simp [Shared.move, hu]

@[simp] theorem move_done (s : Shared) (t : Tid) (g : Goroutine) :
    (s.move t g).done = s.done := rfl

@[simp] theorem move_mu (s : Shared) (t : Tid) (g : Goroutine) :
    (s.move t g).mu = s.mu := rfl

@[simp] theorem move_exitCalls (s : Shared) (t : Tid) (g : Goroutine) :
    (s.move t g).exitCalls = s.exitCalls := rfl

@[simp] theorem move_exitReturns (s : Shared) (t : Tid) (g : Goroutine) :
    (s.move t g).exitReturns = s.exitReturns := rfl

@[simp] theorem move_doReturns (s : Shared) (t : Tid) (g : Goroutine) :
    (s.move t g).doReturns = s.doReturns := rfl

@[simp] theorem move_halted (s : Shared) (t : Tid) (g : Goroutine) :
    (s.move t g).halted = s.halted := rfl

@[simp] theorem inCS_idle : Pc.inCS Pc.idle = false := rfl
@[simp] theorem inCS_fast : Pc.inCS Pc.fast = false := rfl
@[simp] theorem inCS_lock : Pc.inCS Pc.lock = false := rfl
@[simp] theorem inCS_check : Pc.inCS Pc.check = true := rfl
@[simp] theorem inCS_inExit : Pc.inCS Pc.inExit = true := rfl
@[simp] theorem inCS_store : Pc.inCS Pc.store = true := rfl
@[simp] theorem inCS_unlock : Pc.inCS Pc.unlock = true := rfl
@[simp] theorem inCS_after : Pc.inCS Pc.after = false := rfl

/-- At most one goroutine is inside the mutex. -/
theorem Inv.unique {s : Shared} (h : Inv s) (t u : Tid)
    (ht : (s.thr t).pc.inCS = true) (hu : (s.thr u).pc.inCS = true) : u = t := by
  have h1 := (h.hold u).mp hu
  have h2 := (h.hold t).mp ht
  rw [h1] at h2; cases h2; rfl


theorem Pc.notCS {p : Pc} (h : p.inCS = false) :
    p ≠ Pc.check ∧ p ≠ Pc.inExit ∧ p ≠ Pc.store ∧ p ≠ Pc.unlock := by
  cases p <;> simp_all

/-- While the guard is clear and its holder has not called `Exit` yet, `Exit`
has not been called. -/
theorem Inv.clean {s : Shared} (h : Inv s) (t : Tid) (hpc : (s.thr t).pc = Pc.check)
    (hd : s.done = false) : s.exitCalls = 0 ∧ s.exitReturns = 0 := by
  refine h.before hd fun u => ?_
  by_cases hu : u = t
  · subst hu; simp [hpc]
  · have hcs : (s.thr u).pc.inCS = false := by
      cases hc : (s.thr u).pc.inCS with
      | false => rfl
      | true => exact absurd (h.unique t u (by simp [hpc]) hc) hu
    exact ⟨(Pc.notCS hcs).2.1, (Pc.notCS hcs).2.2.1⟩

/-- While goroutine `t` is inside the mutex, no other goroutine is. -/
theorem Inv.others {s : Shared} (h : Inv s) (t u : Tid) (ht : (s.thr t).pc.inCS = true)
    (hu : u ≠ t) :
    (s.thr u).pc ≠ Pc.check ∧ (s.thr u).pc ≠ Pc.inExit ∧ (s.thr u).pc ≠ Pc.store ∧
      (s.thr u).pc ≠ Pc.unlock := by
  have hcs : (s.thr u).pc.inCS = false := by
    cases hc : (s.thr u).pc.inCS with
    | false => rfl
    | true => exact absurd (h.unique t u ht hc) hu
  exact Pc.notCS hcs

/-- The invariant when a goroutine takes its next trigger and enters `Do`. -/
theorem inv_idle (s : Shared) (t : Tid) (h : Inv s) (hh : s.halted = none)
    (hpc : (s.thr t).pc = Pc.idle) (hp : (s.thr t).pending ≠ 0) :
    Inv (s.move t { pc := Pc.fast, pending := (s.thr t).pending - 1 }) := by
  refine ⟨fun u => ?hold, ?done_once, fun u => ?in_exit, fun u => ?at_store, ?before,
    fun u => ?past, ?returned, ?halt, ?run_idle⟩
  case hold | in_exit | at_store | past =>
    have e1 := h.hold t
    by_cases hu : u = t
    · subst hu
      have e2 := h.in_exit u
      have e3 := h.at_store u
      have e4 := h.past u
      have e5 := h.done_once
      have e6 := h.clean u
      simp_all [thr_move_self]
    · have hu1 : t ≠ u := Ne.symm hu
      have b1 := h.hold u
      have b2 := h.in_exit u
      have b3 := h.at_store u
      have b4 := h.past u
      have c := h.others t u
      simp_all [thr_move_other]
  case done_once | returned =>
    have b := h.done_once
    have b1 := h.in_exit t
    have b2 := h.at_store t
    have b3 := h.past t
    have b4 := h.returned
    simp_all
  case halt =>
    intro c hc
    simp [hh] at hc
  case before =>
    intro hd1 hall
    have c1 := hall t
    have b1 := h.in_exit t
    have b2 := h.at_store t
    have b3 := h.past t
    refine h.before hd1 fun u => ?_
    by_cases hu : u = t
    · subst hu; simp_all
    · have c2 := hall u
      simp_all [thr_move_other]
  case run_idle =>
    have b := h.run_idle
    by_cases hu : Tid.run = t
    · subst hu; simp_all [thr_move_self]
    · simp_all [thr_move_other]

/-- The invariant when the first read finds the done flag set. -/
theorem inv_fast_done (s : Shared) (t : Tid) (h : Inv s) (hh : s.halted = none)
    (hpc : (s.thr t).pc = Pc.fast) (hd : s.done = true) :
    Inv ({ s.move t { s.thr t with pc := Pc.after } with doReturns := s.doReturns + 1 }) := by
  refine ⟨fun u => ?hold, ?done_once, fun u => ?in_exit, fun u => ?at_store, ?before,
    fun u => ?past, ?returned, ?halt, ?run_idle⟩
  case hold | in_exit | at_store | past =>
    have e1 := h.hold t
    by_cases hu : u = t
    · subst hu
      have e2 := h.in_exit u
      have e3 := h.at_store u
      have e4 := h.past u
      have e5 := h.done_once
      have e6 := h.clean u
      simp_all [thr_move_self]
    · have hu1 : t ≠ u := Ne.symm hu
      have b1 := h.hold u
      have b2 := h.in_exit u
      have b3 := h.at_store u
      have b4 := h.past u
      have c := h.others t u
      simp_all [thr_move_other]
  case done_once | returned =>
    have b := h.done_once
    have b1 := h.in_exit t
    have b2 := h.at_store t
    have b3 := h.past t
    have b4 := h.returned
    simp_all
  case halt =>
    intro c hc
    simp [hh] at hc
  case before =>
    intro hd1 hall
    have c1 := hall t
    have b1 := h.in_exit t
    have b2 := h.at_store t
    have b3 := h.past t
    simp_all [thr_move_self]
  case run_idle =>
    have b := h.run_idle
    by_cases hu : Tid.run = t
    · subst hu; simp_all [thr_move_self]
    · simp_all [thr_move_other]

/-- The invariant when the first read finds the done flag clear. -/
theorem inv_fast_clear (s : Shared) (t : Tid) (h : Inv s) (hh : s.halted = none)
    (hpc : (s.thr t).pc = Pc.fast) (hd : s.done = false) :
    Inv (s.move t { s.thr t with pc := Pc.lock }) := by
  refine ⟨fun u => ?hold, ?done_once, fun u => ?in_exit, fun u => ?at_store, ?before,
    fun u => ?past, ?returned, ?halt, ?run_idle⟩
  case hold | in_exit | at_store | past =>
    have e1 := h.hold t
    by_cases hu : u = t
    · subst hu
      have e2 := h.in_exit u
      have e3 := h.at_store u
      have e4 := h.past u
      have e5 := h.done_once
      have e6 := h.clean u
      simp_all [thr_move_self]
    · have hu1 : t ≠ u := Ne.symm hu
      have b1 := h.hold u
      have b2 := h.in_exit u
      have b3 := h.at_store u
      have b4 := h.past u
      have c := h.others t u
      simp_all [thr_move_other]
  case done_once | returned =>
    have b := h.done_once
    have b1 := h.in_exit t
    have b2 := h.at_store t
    have b3 := h.past t
    have b4 := h.returned
    simp_all
  case halt =>
    intro c hc
    simp [hh] at hc
  case before =>
    intro hd1 hall
    have c1 := hall t
    have b1 := h.in_exit t
    have b2 := h.at_store t
    have b3 := h.past t
    refine h.before hd1 fun u => ?_
    by_cases hu : u = t
    · subst hu; simp_all
    · have c2 := hall u
      simp_all [thr_move_other]
  case run_idle =>
    have b := h.run_idle
    by_cases hu : Tid.run = t
    · subst hu; simp_all [thr_move_self]
    · simp_all [thr_move_other]

/-- The invariant when a goroutine takes the free mutex. -/
theorem inv_lock (s : Shared) (t : Tid) (h : Inv s) (hh : s.halted = none)
    (hpc : (s.thr t).pc = Pc.lock) (hfree : s.mu = none) :
    Inv ({ s.move t { s.thr t with pc := Pc.check } with mu := some t }) := by
  refine ⟨fun u => ?hold, ?done_once, fun u => ?in_exit, fun u => ?at_store, ?before,
    fun u => ?past, ?returned, ?halt, ?run_idle⟩
  case hold | in_exit | at_store | past =>
    have e1 := h.hold t
    by_cases hu : u = t
    · subst hu
      have e2 := h.in_exit u
      have e3 := h.at_store u
      have e4 := h.past u
      have e5 := h.done_once
      have e6 := h.clean u
      simp_all [thr_move_self]
    · have hu1 : t ≠ u := Ne.symm hu
      have b1 := h.hold u
      have b2 := h.in_exit u
      have b3 := h.at_store u
      have b4 := h.past u
      have c := h.others t u
      simp_all [thr_move_other]
  case done_once | returned =>
    have b := h.done_once
    have b1 := h.in_exit t
    have b2 := h.at_store t
    have b3 := h.past t
    have b4 := h.returned
    simp_all
  case halt =>
    intro c hc
    simp [hh] at hc
  case before =>
    intro hd1 hall
    have c1 := hall t
    have b1 := h.in_exit t
    have b2 := h.at_store t
    have b3 := h.past t
    refine h.before hd1 fun u => ?_
    by_cases hu : u = t
    · subst hu; simp_all
    · have c2 := hall u
      simp_all [thr_move_other]
  case run_idle =>
    have b := h.run_idle
    by_cases hu : Tid.run = t
    · subst hu; simp_all [thr_move_self]
    · simp_all [thr_move_other]

/-- The invariant when the second read finds the done flag set. -/
theorem inv_check_done (s : Shared) (t : Tid) (h : Inv s) (hh : s.halted = none)
    (hpc : (s.thr t).pc = Pc.check) (hd : s.done = true) :
    Inv (s.move t { s.thr t with pc := Pc.unlock }) := by
  refine ⟨fun u => ?hold, ?done_once, fun u => ?in_exit, fun u => ?at_store, ?before,
    fun u => ?past, ?returned, ?halt, ?run_idle⟩
  case hold | in_exit | at_store | past =>
    have e1 := h.hold t
    by_cases hu : u = t
    · subst hu
      have e2 := h.in_exit u
      have e3 := h.at_store u
      have e4 := h.past u
      have e5 := h.done_once
      have e6 := h.clean u
      simp_all [thr_move_self]
    · have hu1 : t ≠ u := Ne.symm hu
      have b1 := h.hold u
      have b2 := h.in_exit u
      have b3 := h.at_store u
      have b4 := h.past u
      have c := h.others t u
      simp_all [thr_move_other]
  case done_once | returned =>
    have b := h.done_once
    have b1 := h.in_exit t
    have b2 := h.at_store t
    have b3 := h.past t
    have b4 := h.returned
    simp_all
  case halt =>
    intro c hc
    simp [hh] at hc
  case before =>
    intro hd1 hall
    have c1 := hall t
    have b1 := h.in_exit t
    have b2 := h.at_store t
    have b3 := h.past t
    simp_all [thr_move_self]
  case run_idle =>
    have b := h.run_idle
    by_cases hu : Tid.run = t
    · subst hu; simp_all [thr_move_self]
    · simp_all [thr_move_other]

/-- The invariant when the holder of the mutex calls `Exit`. -/
theorem inv_check_clear (s : Shared) (t : Tid) (h : Inv s) (hh : s.halted = none)
    (hpc : (s.thr t).pc = Pc.check) (hd : s.done = false) :
    Inv ({ s.move t { s.thr t with pc := Pc.inExit } with exitCalls := s.exitCalls + 1 }) := by
  refine ⟨fun u => ?hold, ?done_once, fun u => ?in_exit, fun u => ?at_store, ?before,
    fun u => ?past, ?returned, ?halt, ?run_idle⟩
  case hold | in_exit | at_store | past =>
    have e1 := h.hold t
    by_cases hu : u = t
    · subst hu
      have e2 := h.in_exit u
      have e3 := h.at_store u
      have e4 := h.past u
      have e5 := h.done_once
      have e6 := h.clean u
      simp_all [thr_move_self]
    · have hu1 : t ≠ u := Ne.symm hu
      have b1 := h.hold u
      have b2 := h.in_exit u
      have b3 := h.at_store u
      have b4 := h.past u
      have c := h.others t u
      simp_all [thr_move_other]
  case done_once | returned =>
    have b := h.done_once
    have b1 := h.in_exit t
    have b2 := h.at_store t
    have b3 := h.past t
    have b4 := h.returned
    simp_all
  case halt =>
    intro c hc
    simp [hh] at hc
  case before =>
    intro hd1 hall
    have c1 := hall t
    have b1 := h.in_exit t
    have b2 := h.at_store t
    have b3 := h.past t
    simp_all [thr_move_self]
  case run_idle =>
    have b := h.run_idle
    by_cases hu : Tid.run = t
    · subst hu; simp_all [thr_move_self]
    · simp_all [thr_move_other]

/-- The invariant when `Exit` returns. -/
theorem inv_inExit (s : Shared) (t : Tid) (h : Inv s) (hh : s.halted = none)
    (hpc : (s.thr t).pc = Pc.inExit) :
    Inv ({ s.move t { s.thr t with pc := Pc.store } with exitReturns := s.exitReturns + 1 }) := by
  refine ⟨fun u => ?hold, ?done_once, fun u => ?in_exit, fun u => ?at_store, ?before,
    fun u => ?past, ?returned, ?halt, ?run_idle⟩
  case hold | in_exit | at_store | past =>
    have e1 := h.hold t
    by_cases hu : u = t
    · subst hu
      have e2 := h.in_exit u
      have e3 := h.at_store u
      have e4 := h.past u
      have e5 := h.done_once
      have e6 := h.clean u
      simp_all [thr_move_self]
    · have hu1 : t ≠ u := Ne.symm hu
      have b1 := h.hold u
      have b2 := h.in_exit u
      have b3 := h.at_store u
      have b4 := h.past u
      have c := h.others t u
      simp_all [thr_move_other]
  case done_once | returned =>
    have b := h.done_once
    have b1 := h.in_exit t
    have b2 := h.at_store t
    have b3 := h.past t
    have b4 := h.returned
    simp_all
  case halt =>
    intro c hc
    simp [hh] at hc
  case before =>
    intro hd1 hall
    have c1 := hall t
    have b1 := h.in_exit t
    have b2 := h.at_store t
    have b3 := h.past t
    simp_all [thr_move_self]
  case run_idle =>
    have b := h.run_idle
    by_cases hu : Tid.run = t
    · subst hu; simp_all [thr_move_self]
    · simp_all [thr_move_other]

/-- The invariant when the done flag is stored. -/
theorem inv_store (s : Shared) (t : Tid) (h : Inv s) (hh : s.halted = none)
    (hpc : (s.thr t).pc = Pc.store) :
    Inv ({ s.move t { s.thr t with pc := Pc.unlock } with done := true }) := by
  refine ⟨fun u => ?hold, ?done_once, fun u => ?in_exit, fun u => ?at_store, ?before,
    fun u => ?past, ?returned, ?halt, ?run_idle⟩
  case hold | in_exit | at_store | past =>
    have e1 := h.hold t
    by_cases hu : u = t
    · subst hu
      have e2 := h.in_exit u
      have e3 := h.at_store u
      have e4 := h.past u
      have e5 := h.done_once
      have e6 := h.clean u
      simp_all [thr_move_self]
    · have hu1 : t ≠ u := Ne.symm hu
      have b1 := h.hold u
      have b2 := h.in_exit u
      have b3 := h.at_store u
      have b4 := h.past u
      have c := h.others t u
      simp_all [thr_move_other]
  case done_once | returned =>
    have b := h.done_once
    have b1 := h.in_exit t
    have b2 := h.at_store t
    have b3 := h.past t
    have b4 := h.returned
    simp_all
  case halt =>
    intro c hc
    simp [hh] at hc
  case before =>
    intro hd1 hall
    have c1 := hall t
    have b1 := h.in_exit t
    have b2 := h.at_store t
    have b3 := h.past t
    simp_all [thr_move_self]
  case run_idle =>
    have b := h.run_idle
    by_cases hu : Tid.run = t
    · subst hu; simp_all [thr_move_self]
    · simp_all [thr_move_other]

/-- The invariant when the mutex is released and `Do` returns. -/
theorem inv_unlock (s : Shared) (t : Tid) (h : Inv s) (hh : s.halted = none)
    (hpc : (s.thr t).pc = Pc.unlock) :
    Inv ({ s.move t { s.thr t with pc := Pc.after } with mu := none, doReturns := s.doReturns + 1 }) := by
  refine ⟨fun u => ?hold, ?done_once, fun u => ?in_exit, fun u => ?at_store, ?before,
    fun u => ?past, ?returned, ?halt, ?run_idle⟩
  case hold | in_exit | at_store | past =>
    have e1 := h.hold t
    by_cases hu : u = t
    · subst hu
      have e2 := h.in_exit u
      have e3 := h.at_store u
      have e4 := h.past u
      have e5 := h.done_once
      have e6 := h.clean u
      simp_all [thr_move_self]
    · have hu1 : t ≠ u := Ne.symm hu
      have b1 := h.hold u
      have b2 := h.in_exit u
      have b3 := h.at_store u
      have b4 := h.past u
      have c := h.others t u
      simp_all [thr_move_other]
  case done_once | returned =>
    have b := h.done_once
    have b1 := h.in_exit t
    have b2 := h.at_store t
    have b3 := h.past t
    have b4 := h.returned
    simp_all
  case halt =>
    intro c hc
    simp [hh] at hc
  case before =>
    intro hd1 hall
    have c1 := hall t
    have b1 := h.in_exit t
    have b2 := h.at_store t
    have b3 := h.past t
    simp_all [thr_move_self]
  case run_idle =>
    have b := h.run_idle
    by_cases hu : Tid.run = t
    · subst hu; simp_all [thr_move_self]
    · simp_all [thr_move_other]

/-- The invariant when the signal loop or the caller of `Stop` goes on. -/
theorem inv_after_other (s : Shared) (t : Tid) (h : Inv s) (hh : s.halted = none)
    (hpc : (s.thr t).pc = Pc.after) (ht : t ≠ Tid.run) :
    Inv (s.move t { s.thr t with pc := Pc.idle }) := by
  refine ⟨fun u => ?hold, ?done_once, fun u => ?in_exit, fun u => ?at_store, ?before,
    fun u => ?past, ?returned, ?halt, ?run_idle⟩
  case hold | in_exit | at_store | past =>
    have e1 := h.hold t
    by_cases hu : u = t
    · subst hu
      have e2 := h.in_exit u
      have e3 := h.at_store u
      have e4 := h.past u
      have e5 := h.done_once
      have e6 := h.clean u
      simp_all [thr_move_self]
    · have hu1 : t ≠ u := Ne.symm hu
      have b1 := h.hold u
      have b2 := h.in_exit u
      have b3 := h.at_store u
      have b4 := h.past u
      have c := h.others t u
      simp_all [thr_move_other]
  case done_once | returned =>
    have b := h.done_once
    have b1 := h.in_exit t
    have b2 := h.at_store t
    have b3 := h.past t
    have b4 := h.returned
    simp_all
  case halt =>
    intro c hc
    simp [hh] at hc
  case before =>
    intro hd1 hall
    have c1 := hall t
    have b1 := h.in_exit t
    have b2 := h.at_store t
    have b3 := h.past t
    simp_all [thr_move_self]
  case run_idle =>
    have b := h.run_idle
    by_cases hu : Tid.run = t
    · subst hu; simp_all [thr_move_self]
    · simp_all [thr_move_other]

/-- The invariant when the run-loop goroutine calls `os.Exit(1)`. -/
theorem inv_after_run (s : Shared) (h : Inv s) (hpc : (s.thr Tid.run).pc = Pc.after) :
    Inv { s with halted := some 1 } := by
  refine ⟨h.hold, h.done_once, h.in_exit, h.at_store, h.before, h.past, h.returned, ?_,
    h.run_idle⟩
  intro c hc
  have hd := h.past Tid.run (Or.inr hpc)
  simp at hc
  exact ⟨hc.symm, hd, hpc⟩

/-- Every step of every goroutine keeps the invariant. -/
theorem inv_step (s : Shared) (t : Tid) (h : Inv s) : Inv (step s t) := by
  unfold step
  cases hh : s.halted with
  | some c => simpa [hh] using h
  | none =>
    simp only []
    cases hpc : (s.thr t).pc with
    | idle =>
      simp only []
      split
      · exact h
      · exact inv_idle s t h hh hpc (by assumption)
    | fast =>
      simp only []
      cases hd : s.done with
      | true => simpa using inv_fast_done s t h hh hpc hd
      | false => simpa using inv_fast_clear s t h hh hpc hd
    | lock =>
      simp only []
      cases hm : s.mu with
      | some u => exact h
      | none => exact inv_lock s t h hh hpc hm
    | check =>
      simp only []
      cases hd : s.done with
      | true => simpa using inv_check_done s t h hh hpc hd
      | false => simpa using inv_check_clear s t h hh hpc hd
    | inExit => exact inv_inExit s t h hh hpc
    | store => exact inv_store s t h hh hpc
    | unlock => exact inv_unlock s t h hh hpc
    | after =>
      cases t with
      | run => exact inv_after_run s h hpc
      | sig => exact inv_after_other s Tid.sig h hh hpc (by decide)
      | ext => exact inv_after_other s Tid.ext h hh hpc (by decide)

theorem exec_cons (s : Shared) (t : Tid) (sched : List Tid) :
    exec s (t :: sched) = exec (step s t) sched := rfl

theorem exec_append (s : Shared) (a b : List Tid) :
    exec s (a ++ b) = exec (exec s a) b := by
  simp [exec, List.foldl_append]

/-- Every interleaving keeps the invariant. -/
theorem inv_exec (s : Shared) (sched : List Tid) (h : Inv s) : Inv (exec s sched) := by
  induction sched generalizing s with
  | nil => exact h
  | cons t sched ih => exact ih (step s t) (inv_step s t h)

/-- In every state of the invariant `Exit` has been called at most once, and
it has returned at most as often as it was called. -/
theorem Inv.at_most_once {s : Shared} (h : Inv s) :
    s.exitCalls ≤ 1 ∧ s.exitReturns ≤ s.exitCalls := by
  cases hd : s.done with
  | true =>
    obtain ⟨h1, h2⟩ := h.done_once hd
    omega
  | false =>
    by_cases hx : ∃ t, (s.thr t).pc = Pc.inExit ∨ (s.thr t).pc = Pc.store
    · obtain ⟨t, ht | ht⟩ := hx
      · obtain ⟨-, h1, h2⟩ := h.in_exit t ht
        omega
      · obtain ⟨-, h1, h2⟩ := h.at_store t ht
        omega
    · have := h.before hd fun t => ⟨fun e => hx ⟨t, Or.inl e⟩, fun e => hx ⟨t, Or.inr e⟩⟩
      omega

/-- Moving one goroutine to a place with fewer steps left lowers the bound. -/
theorem left_move (s : Shared) (t : Tid) (g : Goroutine)
    (hlt : g.left < (s.thr t).left) : (s.move t g).left < s.left := by
  cases t <;> simp [Shared.left, Shared.move] <;> omega

/-- No deadlock: while the process runs, some goroutine can make a step that
terminates the process or lowers the bound on the steps left. -/
theorem progress (s : Shared) (h : Inv s) (hh : s.halted = none) :
    ∃ t, (step s t).halted = some 1 ∨ (step s t).left < s.left := by
  cases hm : s.mu with
  | some t =>
    have hcs : (s.thr t).pc.inCS = true := (h.hold t).mpr hm
    refine ⟨t, Or.inr ?_⟩
    unfold step
    simp only [hh]
    cases hpc : (s.thr t).pc with
    | idle => simp [hpc] at hcs
    | fast => simp [hpc] at hcs
    | lock => simp [hpc] at hcs
    | after => simp [hpc] at hcs
    | check =>
      simp only []
      cases hd : s.done with
      | true =>
        simp only [if_true]
        exact left_move s t _ (by simp [Goroutine.left, Pc.rank, hpc])
      | false =>
        simp only [Bool.false_eq_true, if_false]
        exact left_move s t _ (by simp [Goroutine.left, Pc.rank, hpc])
    | inExit => exact left_move s t _ (by simp [Goroutine.left, Pc.rank, hpc])
    | store => exact left_move s t _ (by simp [Goroutine.left, Pc.rank, hpc])
    | unlock => exact left_move s t _ (by simp [Goroutine.left, Pc.rank, hpc])
  | none =>
    have hncs : (s.thr Tid.run).pc.inCS = false := by
      cases hc : (s.thr Tid.run).pc.inCS with
      | false => rfl
      | true => have := (h.hold Tid.run).mp hc; rw [hm] at this; cases this
    refine ⟨Tid.run, ?_⟩
    unfold step
    simp only [hh]
    cases hpc : (s.thr Tid.run).pc with
    | check => simp [hpc] at hncs
    | inExit => simp [hpc] at hncs
    | store => simp [hpc] at hncs
    | unlock => simp [hpc] at hncs
    | after => left; rfl
    | idle =>
      have hp := h.run_idle hpc
      right
      simp only [hp]
      exact left_move s Tid.run _ (by simp [Goroutine.left, Pc.rank, hpc, hp])
    | fast =>
      right
      simp only []
      cases hd : s.done with
      | true =>
        simp only [if_true]
        exact left_move s Tid.run _ (by simp [Goroutine.left, Pc.rank, hpc])
      | false =>
        simp only [Bool.false_eq_true, if_false]
        exact left_move s Tid.run _ (by simp [Goroutine.left, Pc.rank, hpc])
    | lock =>
      right
      simp only [hm]
      exact left_move s Tid.run _ (by simp [Goroutine.left, Pc.rank, hpc])

/-- From every state of the invariant some continuation of the schedule ends
with the process terminated with status 1. -/
theorem can_finish (n : Nat) (s : Shared) (hn : s.left ≤ n) (h : Inv s) :
    ∃ more, (exec s more).halted = some 1 := by
  induction n generalizing s with
  | zero =>
    cases hh : s.halted with
    | some c => exact ⟨[], by rw [(h.halt c hh).1] at hh; exact hh⟩
    | none =>
      obtain ⟨t, ht | ht⟩ := progress s h hh
      · exact ⟨[t], ht⟩
      · omega
  | succ n ih =>
    cases hh : s.halted with
    | some c => exact ⟨[], by rw [(h.halt c hh).1] at hh; exact hh⟩
    | none =>
      obtain ⟨t, ht | ht⟩ := progress s h hh
      · exact ⟨[t], ht⟩
      · obtain ⟨more, hmore⟩ := ih (step s t) (by omega) (inv_step s t h)
        exact ⟨t :: more, hmore⟩

/-- C2: in every interleaving of the steps of the signal loop (any number of
SIGTERMs), the run-loop goroutine (`Main` fails, `Stop`, `os.Exit(1)`) and an
external caller of `Stop` (any number of calls), the guarded action has called
`Exit` at most once at every moment; as soon as one `Do` has returned, and
whenever the process has terminated, `Exit` has been called exactly once and
has returned; and every interleaving can be run on to the termination of the
process, where `Exit` has been called exactly once. -/
theorem exit_once_every_interleaving (nSig nStop : Nat) (sched : List Tid) :
    (exec (Shared.init nSig nStop) sched).exitCalls ≤ 1 ∧
    (exec (Shared.init nSig nStop) sched).exitReturns ≤
      (exec (Shared.init nSig nStop) sched).exitCalls ∧
    (0 < (exec (Shared.init nSig nStop) sched).doReturns →
      (exec (Shared.init nSig nStop) sched).exitCalls = 1 ∧
      (exec (Shared.init nSig nStop) sched).exitReturns = 1) ∧
    (∀ c, (exec (Shared.init nSig nStop) sched).halted = some c →
      (exec (Shared.init nSig nStop) sched).exitCalls = 1 ∧
      (exec (Shared.init nSig nStop) sched).exitReturns = 1) ∧
    (∃ more, (exec (Shared.init nSig nStop) (sched ++ more)).halted = some 1 ∧
      (exec (Shared.init nSig nStop) (sched ++ more)).exitCalls = 1) := by
  have h := inv_exec _ sched (inv_init nSig nStop)
  refine ⟨h.at_most_once.1, h.at_most_once.2, fun hr => h.done_once (h.returned hr),
    fun c hc => h.done_once (h.halt c hc).2.1, ?_⟩
  obtain ⟨more, hmore⟩ := can_finish _ _ (le_refl _) h
  refine ⟨more, ?_, ?_⟩
  · rw [exec_append]; exact hmore
  · have h2 := inv_exec _ (sched ++ more) (inv_init nSig nStop)
    rw [exec_append] at h2 ⊢
    exact (h2.done_once (h2.halt 1 hmore).2.1).1

theorem exit_once_every_interleaving_witness :
    (exec (Shared.init 1 1)
      [Tid.sig, Tid.run, Tid.ext, Tid.sig, Tid.run, Tid.ext, Tid.sig, Tid.run, Tid.ext,
       Tid.sig, Tid.sig, Tid.sig, Tid.sig, Tid.sig, Tid.run, Tid.run, Tid.run, Tid.run,
       Tid.run, Tid.run]).exitCalls ≤ 1 :=
  (exit_once_every_interleaving 1 1 _).1

/-! ## The failure of the run loop -/

theorem quiet_fire (tr0 : List Event) (n : Option Engine) (s : Sys) (t : Trigger)
    (hq : Quiet tr0 n s) (ht : t = Trigger.sigterm ∨ t = Trigger.stop) :
    Quiet tr0 n (fire s t) := by
  obtain ⟨hh, hn, hcase⟩ := hq
  rw [fire_running s t hh]
  rcases ht with rfl | rfl
  · rcases hcase with ⟨ho, htr⟩ | ⟨ho, b, htr, hb, hx⟩
    · refine ⟨by simp [ho, hh], by simp [ho, hn], Or.inr ⟨by simp [ho], [], ?_, rfl, by simp⟩⟩
      simp [ho, htr, hn]
    · exact ⟨by simp [ho, hh], by simp [ho, hn], Or.inr ⟨by simp [ho], b, by simp [ho, htr],
        hb, hx⟩⟩
  · rcases hcase with ⟨ho, htr⟩ | ⟨ho, b, htr, hb, hx⟩
    · refine ⟨by simp [ho, hh], by simp [ho, hn],
        Or.inr ⟨by simp [ho], [Event.stopReturn], ?_, rfl, by simp⟩⟩
      simp [ho, htr, hn]
    · refine ⟨by simp [ho, hh], by simp [ho, hn],
        Or.inr ⟨by simp [ho], b ++ [Event.stopReturn], by simp [ho, htr], ?_, ?_⟩⟩
      · rw [exitCalls_append, hb]; rfl
      · intro c hc
        simp at hc
        exact hx c hc

theorem Start_returned_no_osExit (w : World) (p : program)
    (hret : (Start w p).outcome = Outcome.returned none) (c : Nat) :
    Event.osExit c ∉ (Start w p).trace := by
  cases startPath w with
  | version hv => rw [Start_version w p hv] at hret; simp at hret
  | decodeError e hv hd =>
    rw [Start_decodeError w p e hv hd] at hret; simp [logFatal, lgLogFatal] at hret
  | validateFail r hv hd hval =>
    rw [Start_validateFail w p r hv hd hval] at hret; simp at hret
  | newError e hv hd hval hnew =>
    rw [Start_newError w p e hv hd hval hnew] at hret; simp at hret
  | loadError e err hv hd hval hnew hload =>
    rw [Start_loadError w p e err hv hd hval hnew hload] at hret; simp at hret
  | persistError e err hv hd hval hnew hload hpers =>
    rw [Start_persistError w p e err hv hd hval hnew hload hpers] at hret; simp at hret
  | ok e hv hd hval hnew hload hpers =>
    rw [Start_ok w p e hv hd hval hnew hload hpers]
    simp [mem_toNew]

theorem actAll_cons (s : Sys) (m : Move) (ms : List Move) :
    actAll s (m :: ms) = actAll (act s m) ms := rfl

/-- A terminated process runs nothing. -/
theorem act_halted (s : Sys) (m : Move) (c : Nat) (hh : s.halted = some c) :
    act s m = s := by
  cases m with
  | trigger t => exact fire_halted s t c hh
  | mainReturn => simp [act, mainReturn, hh]

theorem actAll_halted (s : Sys) (ms : List Move) (c : Nat) (hh : s.halted = some c) :
    actAll s ms = s := by
  induction ms with
  | nil => rfl
  | cons m ms ih => rw [actAll_cons, act_halted s m c hh, ih]

/-- A move that leaves the process running keeps it quiet. -/
theorem quiet_act (tr0 : List Event) (n : Option Engine) (s : Sys) (m : Move)
    (hq : Quiet tr0 n s) (hrun : (act s m).halted = none) : Quiet tr0 n (act s m) := by
  cases m with
  | trigger t =>
    cases t with
    | sigterm => exact quiet_fire tr0 n s _ hq (Or.inl rfl)
    | stop => exact quiet_fire tr0 n s _ hq (Or.inr rfl)
    | runFailure err =>
      have hh := hq.1
      simp only [act] at hrun
      rw [fire_running s _ hh] at hrun
      by_cases ho : s.prog.once = true <;> simp [ho] at hrun
  | mainReturn =>
    have hh := hq.1
    simp only [act, mainReturn, hh] at hrun ⊢
    by_cases hm : Event.stopReturn ∈ s.trace
    · simp [hm] at hrun
    · simpa [hm] using hq

theorem quiet_actAll (tr0 : List Event) (n : Option Engine) (s : Sys) (ms : List Move)
    (hq : Quiet tr0 n s) (hrun : (actAll s ms).halted = none) :
    Quiet tr0 n (actAll s ms) := by
  induction ms generalizing s with
  | nil => exact hq
  | cons m ms ih =>
    rw [actAll_cons] at hrun ⊢
    have hm : (act s m).halted = none := by
      cases hc : (act s m).halted with
      | none => rfl
      | some c => rw [actAll_halted _ ms c hc, hc] at hrun; cases hrun
    exact ih (act s m) (quiet_act tr0 n s m hq hm) hrun

/-- Every move keeps the process settled. -/
theorem settled_act (s : Sys) (m : Move) (h : Settled s) : Settled (act s m) := by
  cases hh : s.halted with
  | some c => rw [act_halted s m c hh]; exact h
  | none =>
    obtain ⟨h1, h2, h3⟩ := h
    unfold Settled
    cases m with
    | trigger t =>
      simp only [act]
      cases ho : s.prog.once with
      | true =>
        obtain ⟨k1, k2⟩ := fire_used s t ho
        refine ⟨fun _ => (by rw [k2]; exact h1 ho), fun hf => (by rw [k1] at hf; cases hf), ?_⟩
        intro c hc
        rw [fire_running s t hh] at hc
        cases t <;> simp [ho, hh] at hc
        exact Or.inr hc.symm
      | false =>
        obtain ⟨k1, k2⟩ := fire_first s t hh ho
        refine ⟨fun _ => (by rw [k2, (h2 ho).1]), fun hf => (by rw [k1] at hf; cases hf), ?_⟩
        intro c hc
        rw [fire_running s t hh] at hc
        cases t <;> simp [ho, hh] at hc
        exact Or.inr hc.symm
    | mainReturn =>
      simp only [act, mainReturn, hh]
      by_cases hm : Event.stopReturn ∈ s.trace
      · rw [if_pos hm]
        refine ⟨h1, fun hf => absurd hm (h2 hf).2.1, ?_⟩
        intro c hc
        simp at hc
        exact Or.inl hc.symm
      · rw [if_neg hm]
        exact ⟨h1, h2, h3⟩

theorem settled_actAll (s : Sys) (ms : List Move) (h : Settled s) :
    Settled (actAll s ms) := by
  induction ms generalizing s with
  | nil => exact h
  | cons m ms ih => exact ih (act s m) (settled_act s m h)

/-- A terminated process makes no step. -/
theorem step_halted (s : Shared) (t : Tid) (c : Nat) (hh : s.halted = some c) :
    step s t = s := by
  simp [step, hh]

theorem execMain_cons (s : Whole) (x : Sched) (sched : List Sched) :
    execMain s (x :: sched) = execMain (stepMain s x) sched := rfl

theorem execMain_append (s : Whole) (a b : List Sched) :
    execMain s (a ++ b) = execMain (execMain s a) b := by
  simp [execMain, List.foldl_append]

/-- Steps of the goroutines alone act on the shared state as `exec` does. -/
theorem execMain_go (s : Whole) (ts : List Tid) :
    (execMain s (ts.map Sched.go)).shared = exec s.shared ts := by
  induction ts generalizing s with
  | nil => rfl
  | cons t ts ih =>
    rw [List.map_cons, execMain_cons, ih, exec_cons]
    rfl

theorem invMain_init (nSig nStop : Nat) : InvMain (Whole.init nSig nStop) :=
  ⟨fun h => by simp [Whole.init] at h, Or.inl (inv_init nSig nStop)⟩

/-- Every step of a goroutine and the return of `main` keep the invariant. -/
theorem invMain_step (s : Whole) (x : Sched) (h : InvMain s) : InvMain (stepMain s x) := by
  obtain ⟨hstop, hcase⟩ := h
  cases x with
  | go t =>
    rcases hcase with hinv | ⟨hh, hs, hc, hr⟩
    · have hinv2 := inv_step s.shared t hinv
      refine ⟨?_, Or.inl hinv2⟩
      intro hsr
      simp only [stepMain] at hsr ⊢
      by_cases hcond : t = Tid.ext ∧ s.shared.halted = none ∧ (s.shared.thr t).pc = Pc.after
      · obtain ⟨rfl, hh, hpc⟩ := hcond
        have hd := hinv.past Tid.ext (Or.inr hpc)
        simp [step, hh, hpc, hd]
      · simp only [hcond, if_false] at hsr
        have hd := hstop hsr
        cases hd2 : (step s.shared t).done with
        | true => rfl
        | false =>
          have hk := hinv.done_once hd
          have hk2 := hinv2.at_most_once
          exfalso
          have hstep : (step s.shared t).done = s.shared.done := by
            unfold step
            cases hh : s.shared.halted with
            | some c => rfl
            | none =>
              simp only []
              cases hpc : (s.shared.thr t).pc with
              | idle => simp only []; split <;> rfl
              | fast => simp [hd]
              | lock => simp only []; cases s.shared.mu <;> rfl
              | check => simp [hd]
              | inExit => rfl
              | store => simp [hd]
              | unlock => rfl
              | after => cases t <;> rfl
          rw [hstep, hd] at hd2
          cases hd2
    · have hst : step s.shared t = s.shared := step_halted s.shared t 0 hh
      simp only [stepMain, hst, hh]
      refine ⟨fun _ => hstop hs, Or.inr ⟨hh, ?_, hc, hr⟩⟩
      simp [hs]
  | mainReturn =>
    simp only [stepMain]
    cases hh : s.shared.halted with
    | some c => exact ⟨hstop, hcase⟩
    | none =>
      simp only []
      by_cases hs : s.stopReturned = true
      · rw [if_pos hs]
        rcases hcase with hinv | ⟨hh0, -⟩
        · have hd := hstop hs
          obtain ⟨h1, h2⟩ := hinv.done_once hd
          exact ⟨fun _ => hd, Or.inr ⟨rfl, hs, h1, h2⟩⟩
        · rw [hh] at hh0; cases hh0
      · rw [if_neg hs]
        exact ⟨hstop, hcase⟩

theorem invMain_exec (s : Whole) (sched : List Sched) (h : InvMain s) :
    InvMain (execMain s sched) := by
  induction sched generalizing s with
  | nil => exact h
  | cons x sched ih => exact ih (stepMain s x) (invMain_step s x h)

/-- C3, as the claim states it, fails: `Main` has returned its error (the
run-loop goroutine has taken it and stands at the start of `p.Stop()`), the
`Stop` of `svc.Run` runs to its return, `main` returns, and the process has
ended with status 0, not 1. -/
theorem main_return_beats_run_failure :
    ((execMain (Whole.init 0 1)
      [Sched.go Tid.run, Sched.go Tid.ext, Sched.go Tid.ext, Sched.go Tid.ext,
       Sched.go Tid.ext, Sched.go Tid.ext, Sched.go Tid.ext, Sched.go Tid.ext,
       Sched.go Tid.ext, Sched.mainReturn]).shared.thr Tid.run) =
        { pc := Pc.fast, pending := 0 } ∧
    (execMain (Whole.init 0 1)
      [Sched.go Tid.run, Sched.go Tid.ext, Sched.go Tid.ext, Sched.go Tid.ext,
       Sched.go Tid.ext, Sched.go Tid.ext, Sched.go Tid.ext, Sched.go Tid.ext,
       Sched.go Tid.ext, Sched.mainReturn]).shared.halted = some 0 :=
  ⟨by decide, by decide⟩

/-- A `Start` that returned has seen no `Stop` return. -/
theorem Start_returned_no_stopReturn (w : World) (p : program)
    (hret : (Start w p).outcome = Outcome.returned none) :
    Event.stopReturn ∉ (Start w p).trace := by
  cases startPath w with
  | version hv => rw [Start_version w p hv] at hret; simp at hret
  | decodeError e hv hd =>
    rw [Start_decodeError w p e hv hd] at hret; simp [logFatal, lgLogFatal] at hret
  | validateFail r hv hd hval =>
    rw [Start_validateFail w p r hv hd hval] at hret; simp at hret
  | newError e hv hd hval hnew =>
    rw [Start_newError w p e hv hd hval hnew] at hret; simp at hret
  | loadError e err hv hd hval hnew hload =>
    rw [Start_loadError w p e err hv hd hval hnew hload] at hret; simp at hret
  | persistError e err hv hd hval hnew hload hpers =>
    rw [Start_persistError w p e err hv hd hval hnew hload hpers] at hret; simp at hret
  | ok e hv hd hval hnew hload hpers =>
    rw [Start_ok w p e hv hd hval hnew hload hpers]
    simp [mem_toNew]

/-- C3, amended: after a `Start` that returned and any moves (SIGTERMs, calls of
`Stop`, the return of `main`), when `Main` returns a non-nil error and the
process is still running, the run-loop goroutine terminates it with status 1;
the trace then is the trace of `Start`, one call of `Exit` on the engine and
its return, events that are neither a call of `Exit` nor an `os.Exit`, the
return of `Stop`, and `os.Exit(1)` last: `Exit` was called exactly once and had
returned, by this `Stop` if the guard was unused and by the earlier trigger
otherwise.  A process that has ended before has ended with status 0 or 1, with
`Exit` called exactly once.  With the goroutines and `main` interleaved step by
step: the process ends with status 0 or 1 only, each time with `Exit` called
once and returned, with status 1 only from the run-loop goroutine after its
`Do` has returned, with status 0 only after a `Stop` has returned to `svc.Run`;
and while the process runs, the goroutines can go on to the end with status
1. -/
theorem run_failure_exit_status (w : World) (p : program)
    (hret : (Start w p).outcome = Outcome.returned none) (hp : p.once = false)
    (ms : List Move) (err : String) :
    ((actAll (afterStart (Start w p)) ms).halted = none →
      (runLoop (some err) (actAll (afterStart (Start w p)) ms)).halted = some 1 ∧
      exitCalls (runLoop (some err) (actAll (afterStart (Start w p)) ms)).trace = 1 ∧
      (∃ b, (runLoop (some err) (actAll (afterStart (Start w p)) ms)).trace =
          (Start w p).trace ++ [Event.exitCall (Start w p).prog.nsqd, Event.exitReturn] ++ b ++
            [Event.stopReturn, Event.osExit 1] ∧
        exitCalls (Start w p).trace = 0 ∧ exitCalls b = 0 ∧
        (∀ c, Event.osExit c ∉ (Start w p).trace) ∧ (∀ c, Event.osExit c ∉ b)) ∧
      ((actAll (afterStart (Start w p)) ms).prog.once = false →
        (runLoop (some err) (actAll (afterStart (Start w p)) ms)).trace =
          (actAll (afterStart (Start w p)) ms).trace ++
            [Event.exitCall (Start w p).prog.nsqd, Event.exitReturn, Event.stopReturn,
             Event.osExit 1] ∧
        exitCalls (actAll (afterStart (Start w p)) ms).trace = 0) ∧
      ((actAll (afterStart (Start w p)) ms).prog.once = true →
        (runLoop (some err) (actAll (afterStart (Start w p)) ms)).trace =
          (actAll (afterStart (Start w p)) ms).trace ++ [Event.stopReturn, Event.osExit 1] ∧
        exitCalls (actAll (afterStart (Start w p)) ms).trace = 1)) ∧
    (∀ c, (actAll (afterStart (Start w p)) ms).halted = some c →
      (c = 0 ∨ c = 1) ∧ exitCalls (actAll (afterStart (Start w p)) ms).trace = 1) ∧
    (∀ nSig nStop sched c,
      (execMain (Whole.init nSig nStop) sched).shared.halted = some c →
      (c = 0 ∨ c = 1) ∧
      (execMain (Whole.init nSig nStop) sched).shared.exitCalls = 1 ∧
      (execMain (Whole.init nSig nStop) sched).shared.exitReturns = 1 ∧
      (c = 1 → ((execMain (Whole.init nSig nStop) sched).shared.thr Tid.run).pc = Pc.after) ∧
      (c = 0 → (execMain (Whole.init nSig nStop) sched).stopReturned = true)) ∧
    (∀ nSig nStop sched,
      (execMain (Whole.init nSig nStop) sched).shared.halted = none →
      ∃ more : List Tid,
        (execMain (Whole.init nSig nStop) (sched ++ more.map Sched.go)).shared.halted =
          some 1) := by
  obtain ⟨-, honce, -⟩ := Start_returned w p none hret
  have h0 : exitCalls (Start w p).trace = 0 := exitCalls_Start w p
  have hx0 := Start_returned_no_osExit w p hret
  have ho0 : (afterStart (Start w p)).prog.once = false := by simp [afterStart, honce, hp]
  refine ⟨?_, ?_, ?_, ?_⟩
  · intro hrun
    have hq0 : Quiet (Start w p).trace (Start w p).prog.nsqd (afterStart (Start w p)) :=
      ⟨rfl, rfl, Or.inl ⟨ho0, rfl⟩⟩
    obtain ⟨hh, hn, hcase⟩ := quiet_actAll _ _ _ ms hq0 hrun
    refine ⟨rfl, ?_, ?_, ?_, ?_⟩
    · rcases hcase with ⟨ho, htr⟩ | ⟨ho, b, htr, hb, hx⟩
      · have htrace : (runLoop (some err) (actAll (afterStart (Start w p)) ms)).trace =
            (Start w p).trace ++ [Event.exitCall (Start w p).prog.nsqd, Event.exitReturn,
              Event.stopReturn, Event.osExit 1] := by
          simp [runLoop, Stop, onceDo, exitAction, ho, htr, hn]
        rw [htrace, exitCalls_append, h0]
        rfl
      · have htrace : (runLoop (some err) (actAll (afterStart (Start w p)) ms)).trace =
            (Start w p).trace ++ [Event.exitCall (Start w p).prog.nsqd, Event.exitReturn] ++
              b ++ [Event.stopReturn, Event.osExit 1] := by
          simp [runLoop, Stop, onceDo, ho, htr]
        rw [htrace, exitCalls_append, exitCalls_append, exitCalls_append, h0, hb]
        rfl
    · rcases hcase with ⟨ho, htr⟩ | ⟨ho, b, htr, hb, hx⟩
      · exact ⟨[], by simp [runLoop, Stop, onceDo, exitAction, ho, htr, hn], h0, rfl, hx0,
          by simp⟩
      · exact ⟨b, by simp [runLoop, Stop, onceDo, ho, htr], h0, hb, hx0, hx⟩
    · intro ho
      rcases hcase with ⟨-, htr⟩ | ⟨ho1, -⟩
      · exact ⟨by simp [runLoop, Stop, onceDo, exitAction, ho, hn], by rw [htr]; exact h0⟩
      · rw [ho] at ho1; cases ho1
    · intro ho
      rcases hcase with ⟨ho1, -⟩ | ⟨-, b, htr, hb, hx⟩
      · rw [ho] at ho1; cases ho1
      · refine ⟨by simp [runLoop, Stop, onceDo, ho], ?_⟩
        rw [htr, exitCalls_append, exitCalls_append, h0, hb]
        rfl
  · intro c hc
    have hs0 : Settled (afterStart (Start w p)) :=
      ⟨fun h => (by rw [ho0] at h; cases h),
       fun _ => ⟨h0, Start_returned_no_stopReturn w p hret, rfl⟩,
       fun c h => (by simp [afterStart] at h)⟩
    obtain ⟨k1, k2, k3⟩ := settled_actAll _ ms hs0
    refine ⟨k3 c hc, ?_⟩
    cases ho : (actAll (afterStart (Start w p)) ms).prog.once with
    | true => exact k1 ho
    | false => rw [(k2 ho).2.2] at hc; cases hc
  · intro nSig nStop sched c hc
    obtain ⟨hstop, hcase⟩ := invMain_exec _ sched (invMain_init nSig nStop)
    rcases hcase with hinv | ⟨hh, hs, h1, h2⟩
    · obtain ⟨e1, e2, e3⟩ := hinv.halt c hc
      obtain ⟨d1, d2⟩ := hinv.done_once e2
      subst e1
      exact ⟨Or.inr rfl, d1, d2, fun _ => e3, fun h => (by cases h)⟩
    · rw [hh] at hc
      cases hc
      exact ⟨Or.inl rfl, h1, h2, fun h => (by cases h), fun _ => hs⟩
  · intro nSig nStop sched hrun
    obtain ⟨hstop, hcase⟩ := invMain_exec _ sched (invMain_init nSig nStop)
    rcases hcase with hinv | ⟨hh, -⟩
    · obtain ⟨more, hmore⟩ := can_finish _ _ (le_refl _) hinv
      exact ⟨more, by rw [execMain_append, execMain_go]; exact hmore⟩
    · rw [hh] at hrun; cases hrun

theorem run_failure_exit_status_witness :
    (Start wOk program.zero).outcome = Outcome.returned none ∧
    (runLoop (some "listen tcp: address already in use")
      (actAll (afterStart (Start wOk program.zero))
        [Move.trigger Trigger.sigterm, Move.mainReturn])).halted = some 1 :=
  ⟨by decide,
   ((run_failure_exit_status wOk program.zero (by decide) rfl
      [Move.trigger Trigger.sigterm, Move.mainReturn]
      "listen tcp: address already in use").1 (by decide)).1⟩

end Nsqd
